import Mathlib

/-!
Verification development for the Slice backend (`src/backend/main.py`).

The Python source is shallowly embedded: money amounts (Python floats holding
currency values) are modelled as rationals, Python's `round` (banker's
rounding, ties to even) as `rne`/`round2`, dictionaries keyed by identifier as
association lists in insertion order, and regular-expression scans as
character-list parsers with the same matching semantics.  All definitions are
structurally recursive so that concrete inputs evaluate inside the kernel.
-/

namespace Slice

/-- Python's `round(x)` to an integer: nearest integer, ties to even. -/
def rne (x : ℚ) : ℤ :=
  if x - (⌊x⌋ : ℚ) < 1/2 then ⌊x⌋
  else if 1/2 < x - (⌊x⌋ : ℚ) then ⌊x⌋ + 1
  else if ⌊x⌋ % 2 = 0 then ⌊x⌋ else ⌊x⌋ + 1

/-- Python's `round(x, 2)`: round to the nearest multiple of `1/100`. -/
def round2 (x : ℚ) : ℚ := (rne (x * 100) : ℚ) / 100

theorem rne_intCast (n : ℤ) : rne (n : ℚ) = n := by
  unfold rne
  simp [Int.floor_intCast]

theorem rne_le (x : ℚ) : (rne x : ℚ) ≤ x + 1/2 := by
  unfold rne
  have hf := Int.floor_le x
  have hf1 := Int.lt_floor_add_one x
  split
  · linarith
  · split
    · push_cast
      linarith
    · split
      · linarith
      · push_cast
        rename_i h1 h2 _
        have : x - (⌊x⌋ : ℚ) = 1/2 := le_antisymm (not_lt.mp h2) (not_lt.mp h1)
        linarith

theorem le_rne (x : ℚ) : x - 1/2 ≤ (rne x : ℚ) := by
  unfold rne
  have hf := Int.floor_le x
  have hf1 := Int.lt_floor_add_one x
  split
  · rename_i h
    linarith
  · split
    · push_cast
      linarith
    · split
      · rename_i h1 h2 _
        have : x - (⌊x⌋ : ℚ) = 1/2 := le_antisymm (not_lt.mp h2) (not_lt.mp h1)
        linarith
      · push_cast
        linarith

theorem rne_nonneg (x : ℚ) (hx : 0 ≤ x) : 0 ≤ rne x := by
  unfold rne
  have hf : (0:ℤ) ≤ ⌊x⌋ := Int.floor_nonneg.mpr hx
  split
  · exact hf
  · split
    · omega
    · split
      · exact hf
      · omega

theorem round2_le (x : ℚ) : round2 x ≤ x + 1/200 := by
  unfold round2
  have h := rne_le (x * 100)
  rw [div_le_iff₀ (by norm_num : (0:ℚ) < 100)]
  linarith

theorem le_round2 (x : ℚ) : x - 1/200 ≤ round2 x := by
  unfold round2
  have h := le_rne (x * 100)
  rw [le_div_iff₀ (by norm_num : (0:ℚ) < 100)]
  linarith

theorem round2_nonneg (x : ℚ) (hx : 0 ≤ x) : 0 ≤ round2 x := by
  unfold round2
  have : (0:ℤ) ≤ rne (x * 100) := rne_nonneg _ (by positivity)
  positivity

/-- Amounts that are an exact whole number of cents. -/
def CentMul (x : ℚ) : Prop := ∃ n : ℤ, x = (n : ℚ) / 100

theorem centMul_zero : CentMul 0 := ⟨0, by norm_num⟩

theorem centMul_add {x y : ℚ} (hx : CentMul x) (hy : CentMul y) : CentMul (x + y) := by
  obtain ⟨m, hm⟩ := hx
  obtain ⟨n, hn⟩ := hy
  exact ⟨m + n, by push_cast [hm, hn]; ring⟩

theorem centMul_round2 (x : ℚ) : CentMul (round2 x) := ⟨rne (x * 100), rfl⟩

theorem round2_centMul {x : ℚ} (hx : CentMul x) : round2 x = x := by
  obtain ⟨n, hn⟩ := hx
  subst hn
  unfold round2
  rw [div_mul_cancel₀ _ (by norm_num : (100:ℚ) ≠ 0), rne_intCast]

theorem round2_div100 (n : ℤ) : round2 ((n : ℚ) / 100) = (n : ℚ) / 100 :=
  round2_centMul ⟨n, rfl⟩

/-!
Extra-charge distribution (`compute_lobby_summary`, `main.py` lines 1304-1324).

Python iterates over the `per_user` dict in participant insertion order and
sorts the distinct user ids by fractional remainder; here users are addressed
by their position in that insertion order, which is equivalent because dict
keys are distinct.  `sorted(..., reverse=True)` is a stable descending sort,
matched by `List.insertionSort` with the reflexive "greater or equal" order.
-/

/-- Fractional remainder `raw_cents[uid] - extra_share_cents[uid]` used as the
sort key for largest-remainder distribution. -/
def frac_at (raws : List ℚ) (i : ℕ) : ℚ :=
  raws.getD i 0 - (⌊raws.getD i 0⌋ : ℚ)

/-- Loop `for uid in by_fraction[:remainder]: extra_share_cents[uid] += 1`. -/
def bump_winners (floors : List ℤ) (winners : List ℕ) : List ℤ :=
  winners.foldl (fun acc i => acc.set i (acc.getD i 0 + 1)) floors

/-- Per-user raw shares `extra_cents * weight / item_subtotal` in dict order. -/
def distribute_raws (ws : List ℚ) (S : ℚ) (E : ℤ) : List ℚ :=
  ws.map fun w => (E : ℚ) * max 0 w / S

/-- Provisional floors `int(math.floor(raw))`. -/
def distribute_floors (ws : List ℚ) (S : ℚ) (E : ℤ) : List ℤ :=
  (distribute_raws ws S E).map fun r => ⌊r⌋

/-- Shortfall `remainder = max(0, extra_cents - floor_sum)`. -/
def distribute_rem (ws : List ℚ) (S : ℚ) (E : ℤ) : ℕ :=
  (max 0 (E - (distribute_floors ws S E).sum)).toNat

/-- Users sorted by fractional remainder, descending, stable on ties
(`sorted(per_user.keys(), key=..., reverse=True)`). -/
def distribute_order (ws : List ℚ) (S : ℚ) (E : ℤ) : List ℕ :=
  List.insertionSort
    (fun i j => frac_at (distribute_raws ws S E) j ≤ frac_at (distribute_raws ws S E) i)
    (List.range ws.length)

/-- Largest-remainder allocation of `E` cents over weights `ws` against the
item subtotal `S` (`main.py` lines 1304-1324, state after the loop). -/
def distribute_extra (ws : List ℚ) (S : ℚ) (E : ℤ) : List ℤ :=
  if 0 < E ∧ 0 < S then
    if 0 < distribute_rem ws S E then
      bump_winners (distribute_floors ws S E)
        ((distribute_order ws S E).take (distribute_rem ws S E))
    else distribute_floors ws S E
  else ws.map fun _ => 0

theorem sum_map_const_mul (c : ℚ) (l : List ℚ) :
    (l.map fun x => c * x).sum = c * l.sum := by
  induction l with
  | nil => simp
  | cons x t ih => simp [ih, mul_add]

theorem floorsum_le (l : List ℚ) : (((l.map fun r => ⌊r⌋).sum : ℤ) : ℚ) ≤ l.sum := by
  induction l with
  | nil => simp
  | cons x t ih =>
    have hx := Int.floor_le x
    simp only [List.map_cons, List.sum_cons]
    push_cast
    push_cast at ih
    linarith

theorem lt_floorsum_add_length (l : List ℚ) (h : l ≠ []) :
    l.sum < (((l.map fun r => ⌊r⌋).sum : ℤ) : ℚ) + l.length := by
  induction l with
  | nil => exact absurd rfl h
  | cons x t ih =>
    have hx := Int.lt_floor_add_one x
    rcases eq_or_ne t [] with ht | ht
    · subst ht
      simp only [List.map_cons, List.map_nil, List.sum_cons, List.sum_nil, List.length_cons,
        List.length_nil]
      push_cast
      linarith
    · have := ih ht
      simp only [List.map_cons, List.sum_cons, List.length_cons]
      push_cast
      push_cast at this
      linarith

theorem sum_set_getD (l : List ℤ) (i : ℕ) (h : i < l.length) :
    (l.set i (l.getD i 0 + 1)).sum = l.sum + 1 := by
  induction l generalizing i with
  | nil => simp at h
  | cons x t ih =>
    cases i with
    | zero => simp [List.set]; ring
    | succ j =>
      have hj : j < t.length := by simpa using h
      simp only [List.set, List.sum_cons, List.getD_cons_succ]
      rw [ih j hj]
      ring

theorem bump_winners_cons (l : List ℤ) (w : ℕ) (t : List ℕ) :
    bump_winners l (w :: t) = bump_winners (l.set w (l.getD w 0 + 1)) t := rfl

theorem bump_winners_spec (winners : List ℕ) (l : List ℤ)
    (h : ∀ i ∈ winners, i < l.length) :
    (bump_winners l winners).sum = l.sum + winners.length ∧
      (bump_winners l winners).length = l.length := by
  induction winners generalizing l with
  | nil => simp [bump_winners]
  | cons w t ih =>
    have hw : w < l.length := h w (List.mem_cons_self w t)
    have hlen : (l.set w (l.getD w 0 + 1)).length = l.length := by simp
    have ht : ∀ i ∈ t, i < (l.set w (l.getD w 0 + 1)).length := by
      intro i hi
      rw [hlen]
      exact h i (List.mem_cons_of_mem _ hi)
    obtain ⟨hs, hl⟩ := ih _ ht
    rw [bump_winners_cons]
    refine ⟨?_, hl.trans hlen⟩
    rw [hs, sum_set_getD l w hw]
    simp
    ring

theorem distribute_floors_length (ws : List ℚ) (S : ℚ) (E : ℤ) :
    (distribute_floors ws S E).length = ws.length := by
  simp [distribute_floors, distribute_raws]

theorem distribute_order_mem (ws : List ℚ) (S : ℚ) (E : ℤ) {i : ℕ}
    (hi : i ∈ distribute_order ws S E) : i < ws.length := by
  have hperm : List.Perm (distribute_order ws S E) (List.range ws.length) :=
    List.perm_insertionSort _ _
  exact List.mem_range.mp (hperm.mem_iff.mp hi)

theorem distribute_order_length (ws : List ℚ) (S : ℚ) (E : ℤ) :
    (distribute_order ws S E).length = ws.length := by
  have hperm : List.Perm (distribute_order ws S E) (List.range ws.length) :=
    List.perm_insertionSort _ _
  simp only [hperm.length_eq, List.length_range]

theorem distribute_extra_length (ws : List ℚ) (S : ℚ) (E : ℤ) :
    (distribute_extra ws S E).length = ws.length := by
  unfold distribute_extra
  split
  · split
    · have hmem : ∀ i ∈ (distribute_order ws S E).take (distribute_rem ws S E),
          i < (distribute_floors ws S E).length := by
        intro i hi
        rw [distribute_floors_length]
        exact distribute_order_mem ws S E (List.mem_of_mem_take hi)
      exact ((bump_winners_spec _ _ hmem).2).trans (distribute_floors_length ws S E)
    · exact distribute_floors_length ws S E
  · simp

theorem distribute_raws_sum (ws : List ℚ) (S : ℚ) (E : ℤ)
    (hnn : ∀ w ∈ ws, 0 ≤ w) (hsum : ws.sum = S) (hS : 0 < S) :
    (distribute_raws ws S E).sum = E := by
  unfold distribute_raws
  have hcong : ws.map (fun w => (E : ℚ) * max 0 w / S) = ws.map fun w => (E : ℚ) / S * w := by
    apply List.map_congr_left
    intro w hw
    rw [max_eq_right (hnn w hw)]
    ring
  rw [hcong, sum_map_const_mul, hsum, div_mul_cancel₀ _ (ne_of_gt hS)]

/-- Largest-remainder exactness: when the weights are nonnegative and sum to
the positive denominator `S`, the allocated cents sum to exactly `E`. -/
theorem distribute_extra_sum (ws : List ℚ) (S : ℚ) (E : ℤ)
    (hnn : ∀ w ∈ ws, 0 ≤ w) (hsum : ws.sum = S) (hS : 0 < S) (hE : 0 ≤ E) :
    (distribute_extra ws S E).sum = E := by
  have hne : ws ≠ [] := by
    intro h
    rw [h] at hsum
    simp at hsum
    rw [← hsum] at hS
    exact lt_irrefl 0 hS
  rcases lt_or_eq_of_le hE with hEpos | hE0
  case inr =>
    unfold distribute_extra
    rw [if_neg]
    · simp [← hE0]
    · intro hc
      rw [← hE0] at hc
      exact lt_irrefl 0 hc.1
  case inl =>
    have hrsum : (distribute_raws ws S E).sum = E := distribute_raws_sum ws S E hnn hsum hS
    have hrne : distribute_raws ws S E ≠ [] := by
      intro h
      apply hne
      unfold distribute_raws at h
      exact List.map_eq_nil_iff.mp h
    have hrlen : (distribute_raws ws S E).length = ws.length := by
      simp [distribute_raws]
    have hfs_le : ((distribute_floors ws S E).sum : ℚ) ≤ E := by
      have := floorsum_le (distribute_raws ws S E)
      rw [hrsum] at this
      exact this
    have hfs_lt : (E : ℚ) < ((distribute_floors ws S E).sum : ℚ) + ws.length := by
      have := lt_floorsum_add_length (distribute_raws ws S E) hrne
      rw [hrsum, hrlen] at this
      exact this
    have hle : (distribute_floors ws S E).sum ≤ E := by exact_mod_cast hfs_le
    have hlt : E - (distribute_floors ws S E).sum < (ws.length : ℤ) := by
      have : (E : ℚ) - ((distribute_floors ws S E).sum : ℚ) < (ws.length : ℚ) := by
        linarith
      exact_mod_cast this
    have hrem_eq : (distribute_rem ws S E : ℤ) = E - (distribute_floors ws S E).sum := by
      unfold distribute_rem
      rw [max_eq_right (by omega)]
      exact Int.toNat_of_nonneg (by omega)
    unfold distribute_extra
    rw [if_pos ⟨hEpos, hS⟩]
    split
    · have hmem : ∀ i ∈ (distribute_order ws S E).take (distribute_rem ws S E),
          i < (distribute_floors ws S E).length := by
        intro i hi
        rw [distribute_floors_length]
        exact distribute_order_mem ws S E (List.mem_of_mem_take hi)
      rw [(bump_winners_spec _ _ hmem).1]
      have htake : ((distribute_order ws S E).take (distribute_rem ws S E)).length
          = distribute_rem ws S E := by
        rw [List.length_take, distribute_order_length]
        have : distribute_rem ws S E ≤ ws.length := by omega
        omega
      rw [htake]
      omega
    · rename_i hrem0
      have : distribute_rem ws S E = 0 := by omega
      rw [this] at hrem_eq
      simp at hrem_eq
      omega

/-!
Settlement calculator (`compute_lobby_summary`, `main.py` lines 1246-1352).

Storage-layer plumbing (SQLite fetches, passcode checks) is out of scope; the
computation is modelled as a pure function of the fetched rows.  Participants
arrive as `(user_id, user_name)` pairs in insertion order with distinct ids
(they are dict keys), claims as an association list `item_id ->
[(user_id, quantity)]` in row order.
-/

/-- ASCII lowercase of a string (Python `str.lower` on the ASCII receipts
handled here). -/
def lower_str (s : String) : String := ⟨s.data.map Char.toLower⟩

/-- Persisted lobby item row (`lobby_items` table / `fetch_lobby_items`). -/
structure LItem where
  id : String
  name : String
  quantity : ℚ
  cost : ℚ
  category_source : String

/-- Claim rows grouped by item id (`fetch_claims`). -/
abbrev ClaimMap := List (String × List (String × ℚ))

/-- Dictionary access `claims.get(item_id, {})`. -/
def claims_for (cm : ClaimMap) (iid : String) : List (String × ℚ) :=
  match cm with
  | [] => []
  | (k, v) :: t => if k = iid then v else claims_for t iid

/-- Unit cost `line_total / qty_total if qty_total > 0 else line_total`. -/
def unit_cost_of (it : LItem) : ℚ :=
  if 0 < it.quantity then it.cost / it.quantity else it.cost

/-- Accrue one claim row into the per-user base totals:
`per_user[user_id]["base_total"] = round(base + round(unit_cost * qty, 2), 2)`;
a claimant who is not a participant is skipped. -/
def apply_claim (unit_cost : ℚ) (users : List (String × ℚ)) (c : String × ℚ) :
    List (String × ℚ) :=
  users.map fun u =>
    if u.1 = c.1 then (u.1, round2 (u.2 + round2 (unit_cost * c.2))) else u

/-- Per-item loop body: accrue all of the item's claims, then add the
unclaimed remainder `unit_cost * max(0, qty_total - claimed_qty_sum)` to the
running unclaimed-item total. -/
def item_step (cm : ClaimMap) (acc : List (String × ℚ) × ℚ) (it : LItem) :
    List (String × ℚ) × ℚ :=
  ((claims_for cm it.id).foldl (apply_claim (unit_cost_of it)) acc.1,
    round2 (acc.2 + unit_cost_of it *
      max 0 (it.quantity - ((claims_for cm it.id).map (fun c => c.2)).sum)))

/-- Base totals per participant and aggregate unclaimed-item total after the
item loop (`main.py` lines 1253-1278). -/
def base_totals (items : List LItem) (cm : ClaimMap)
    (participants : List (String × String)) : List (String × ℚ) × ℚ :=
  items.foldl (item_step cm) (participants.map fun p => (p.1, 0), 0)

/-- Receipt totals persisted with the lobby, as read by
`read_lobby_receipt_totals` / `parse_float_or_none`. -/
structure RTotals where
  detected_subtotal : Option ℚ
  detected_grand_total : Option ℚ

/-- Per-participant settlement row. -/
structure SumUser where
  uid : String
  base : ℚ
  extraCents : ℤ
  extra : ℚ
  total : ℚ

/-- Projection of one distribution result onto a settlement row:
`extra_share = round(cents / 100.0, 2)`, `total = round(base + extra_share, 2)`. -/
def mk_sum_user (u : String × ℚ) (c : ℤ) : SumUser :=
  { uid := u.1, base := u.2, extraCents := c,
    extra := round2 ((c : ℚ) / 100),
    total := round2 (u.2 + round2 ((c : ℚ) / 100)) }

/-- Lobby-level settlement figures returned by `compute_lobby_summary`. -/
structure LobbySummary where
  users : List SumUser
  item_subtotal : ℚ
  extra_charges : ℚ
  grand_total : ℚ
  extra_cents : ℤ
  claimed_base_total : ℚ
  claimed_total : ℚ
  unclaimed_total : ℚ
  unclaimed_item_total : ℚ
  claim_progress_pct : ℚ

/-- Computed fallback subtotal `round(sum(cost), 2)`. -/
def summary_computed_subtotal (items : List LItem) : ℚ :=
  round2 ((items.map fun i => i.cost).sum)

/-- Cost of manually added items (`category_source == "user_selected"`). -/
def summary_manual_added (items : List LItem) : ℚ :=
  round2 (((items.filter fun i => lower_str i.category_source = "user_selected").map
    fun i => i.cost).sum)

/-- Headline item subtotal: detected subtotal plus manual additions when a
detected subtotal exists, else the computed item sum. -/
def summary_item_subtotal (items : List LItem) (rt : RTotals) : ℚ :=
  match rt.detected_subtotal with
  | some d => round2 (d + summary_manual_added items)
  | none => summary_computed_subtotal items

/-- Headline grand total: detected grand total plus manual additions when
present, else the item subtotal. -/
def summary_grand_total (items : List LItem) (rt : RTotals) : ℚ :=
  match rt.detected_grand_total with
  | some d => round2 (d + summary_manual_added items)
  | none => summary_item_subtotal items rt

/-- Extra charges `max(0.0, round(grand_total - item_subtotal, 2))`. -/
def summary_extra_charges (items : List LItem) (rt : RTotals) : ℚ :=
  max 0 (round2 (summary_grand_total items rt - summary_item_subtotal items rt))

/-- Extra charges in integer cents `int(round(extra_charges * 100))`. -/
def summary_extra_cents (items : List LItem) (rt : RTotals) : ℤ :=
  rne (summary_extra_charges items rt * 100)

/-- Participant base totals after the item loop. -/
def summary_users0 (items : List LItem) (cm : ClaimMap)
    (participants : List (String × String)) : List (String × ℚ) :=
  (base_totals items cm participants).1

/-- Per-user extra-share cents produced by the largest-remainder loop. -/
def summary_shares (items : List LItem) (cm : ClaimMap)
    (participants : List (String × String)) (rt : RTotals) : List ℤ :=
  distribute_extra ((summary_users0 items cm participants).map fun u => u.2)
    (summary_item_subtotal items rt) (summary_extra_cents items rt)

/-- Final per-participant settlement rows. -/
def summary_users (items : List LItem) (cm : ClaimMap)
    (participants : List (String × String)) (rt : RTotals) : List SumUser :=
  List.zipWith mk_sum_user (summary_users0 items cm participants)
    (summary_shares items cm participants rt)

/-- Sum of all per-participant totals, rounded (`claimed_total`). -/
def summary_claimed_total (items : List LItem) (cm : ClaimMap)
    (participants : List (String × String)) (rt : RTotals) : ℚ :=
  round2 (((summary_users items cm participants rt).map fun u => u.total).sum)

/-- Sum of the base totals, rounded (`claimed_base_total`). -/
def summary_claimed_base (items : List LItem) (cm : ClaimMap)
    (participants : List (String × String)) : ℚ :=
  round2 (((summary_users0 items cm participants).map fun u => u.2).sum)

/-- Settlement computation (`main.py` lines 1246-1352) as a pure function of
the lobby rows; identifier passthrough fields (`lobby_id`, `lobby_name`,
`participant_count`, the tax-breakdown echo and per-user item lists) are
omitted as they carry no arithmetic. -/
def compute_lobby_summary (items : List LItem) (cm : ClaimMap)
    (participants : List (String × String)) (rt : RTotals) : LobbySummary :=
  { users := summary_users items cm participants rt,
    item_subtotal := summary_item_subtotal items rt,
    extra_charges := summary_extra_charges items rt,
    grand_total := summary_grand_total items rt,
    extra_cents := summary_extra_cents items rt,
    claimed_base_total := summary_claimed_base items cm participants,
    claimed_total := summary_claimed_total items cm participants rt,
    unclaimed_total := round2 (max 0 (summary_grand_total items rt
      - summary_claimed_total items cm participants rt)),
    unclaimed_item_total := round2 (base_totals items cm participants).2,
    claim_progress_pct :=
      if 0 < (if 0 < summary_item_subtotal items rt then summary_item_subtotal items rt
          else summary_grand_total items rt) then
        round2 (min 100 (summary_claimed_base items cm participants
          / (if 0 < summary_item_subtotal items rt then summary_item_subtotal items rt
             else summary_grand_total items rt) * 100))
      else 0 }

/-- Total number of claim rows seen by the item loop. -/
def claim_count (items : List LItem) (cm : ClaimMap) : ℕ :=
  (items.map fun it => (claims_for cm it.id).length).sum

theorem round2_zero : round2 0 = 0 := round2_centMul centMul_zero

theorem round2_mul_hundred (y : ℚ) : round2 y * 100 = ((rne (y * 100) : ℤ) : ℚ) := by
  unfold round2
  field_simp

theorem centMul_list_sum (l : List ℚ) (h : ∀ x ∈ l, CentMul x) : CentMul l.sum := by
  induction l with
  | nil => simpa using centMul_zero
  | cons x t ih =>
    rw [List.sum_cons]
    exact centMul_add (h x (List.mem_cons_self x t))
      (ih fun y hy => h y (List.mem_cons_of_mem _ hy))

theorem zipWith_map_extraCents (l1 : List (String × ℚ)) (l2 : List ℤ)
    (h : l1.length = l2.length) :
    (List.zipWith mk_sum_user l1 l2).map (fun u => u.extraCents) = l2 := by
  induction l1 generalizing l2 with
  | nil =>
    cases l2 with
    | nil => simp
    | cons c cs => simp at h
  | cons x t ih =>
    cases l2 with
    | nil => simp at h
    | cons c cs => simp [mk_sum_user, ih cs (by simpa using h)]

theorem zipWith_map_base (l1 : List (String × ℚ)) (l2 : List ℤ)
    (h : l1.length = l2.length) :
    (List.zipWith mk_sum_user l1 l2).map (fun u => u.base) = l1.map fun u => u.2 := by
  induction l1 generalizing l2 with
  | nil =>
    cases l2 with
    | nil => simp
    | cons c cs => simp at h
  | cons x t ih =>
    cases l2 with
    | nil => simp at h
    | cons c cs => simp [mk_sum_user, ih cs (by simpa using h)]

theorem zipWith_total_zeros (l : List (String × ℚ)) (z : List ℤ)
    (hlen : l.length = z.length) (hz : ∀ c ∈ z, c = 0)
    (hcm : ∀ u ∈ l, CentMul u.2) :
    (List.zipWith mk_sum_user l z).map (fun u => u.total) = l.map fun u => u.2 := by
  induction l generalizing z with
  | nil =>
    cases z with
    | nil => simp
    | cons c cs => simp at hlen
  | cons x t ih =>
    cases z with
    | nil => simp at hlen
    | cons c cs =>
      have hc : c = 0 := hz c (List.mem_cons_self c cs)
      have hx : CentMul x.2 := hcm x (List.mem_cons_self x t)
      have hhead : (mk_sum_user x c).total = x.2 := by
        subst hc
        show round2 (x.2 + round2 (((0:ℤ) : ℚ) / 100)) = x.2
        norm_num [round2_zero]
        exact round2_centMul hx
      rw [List.zipWith_cons_cons, List.map_cons, List.map_cons, hhead,
        ih cs (by simpa using hlen) (fun d hd => hz d (List.mem_cons_of_mem _ hd))
          (fun u hu => hcm u (List.mem_cons_of_mem _ hu))]

theorem apply_claim_fst (unit : ℚ) (users : List (String × ℚ)) (c : String × ℚ) :
    (apply_claim unit users c).map (fun u => u.1) = users.map fun u => u.1 := by
  unfold apply_claim
  rw [List.map_map]
  apply List.map_congr_left
  intro u _
  by_cases h : u.1 = c.1 <;> simp [h]

theorem apply_claim_centMul (unit : ℚ) (users : List (String × ℚ)) (c : String × ℚ)
    (hcm : ∀ u ∈ users, CentMul u.2) :
    ∀ u ∈ apply_claim unit users c, CentMul u.2 := by
  intro u hu
  unfold apply_claim at hu
  obtain ⟨v, hv, rfl⟩ := List.mem_map.mp hu
  by_cases h : v.1 = c.1
  · simpa [h] using centMul_round2 _
  · simpa [h] using hcm v hv

theorem sum_apply_claim_le (unit : ℚ) (users : List (String × ℚ)) (c : String × ℚ)
    (hnd : (users.map fun u => u.1).Nodup) (hcm : ∀ u ∈ users, CentMul u.2)
    (hr : 0 ≤ round2 (unit * c.2)) :
    ((apply_claim unit users c).map fun u => u.2).sum
      ≤ ((users.map fun u => u.2).sum) + round2 (unit * c.2) := by
  induction users with
  | nil => simpa [apply_claim] using hr
  | cons u t ih =>
    have hndt : (t.map fun u => u.1).Nodup := (List.nodup_cons.mp hnd).2
    have hcmt : ∀ v ∈ t, CentMul v.2 := fun v hv => hcm v (List.mem_cons_of_mem _ hv)
    by_cases h : u.1 = c.1
    · have htail : t.map (fun v =>
          if v.1 = c.1 then (v.1, round2 (v.2 + round2 (unit * c.2))) else v) = t := by
        have hcong : ∀ v ∈ t, (if v.1 = c.1 then (v.1, round2 (v.2 + round2 (unit * c.2)))
            else v) = v := by
          intro v hv
          have hne : ¬ (v.1 = c.1) := by
            intro hvc
            have hmem : v.1 ∈ t.map fun u => u.1 := List.mem_map_of_mem _ hv
            rw [hvc, ← h] at hmem
            exact (List.nodup_cons.mp hnd).1 hmem
          rw [if_neg hne]
        rw [List.map_congr_left hcong]
        simp
      have hhead : round2 (u.2 + round2 (unit * c.2)) = u.2 + round2 (unit * c.2) :=
        round2_centMul (centMul_add (hcm u (List.mem_cons_self u t)) (centMul_round2 _))
      simp only [apply_claim, List.map_cons, if_pos h, htail, List.sum_cons, hhead]
      linarith [le_refl ((t.map fun u => u.2).sum)]
    · have hih := ih hndt hcmt
      simp only [apply_claim, List.map_cons, if_neg h, List.sum_cons]
      simp only [apply_claim] at hih
      linarith

theorem claims_fold_spec (unit : ℚ) (hu : 0 ≤ unit) (cl : List (String × ℚ))
    (hq : ∀ c ∈ cl, 0 ≤ c.2) :
    ∀ users : List (String × ℚ), (users.map fun u => u.1).Nodup →
      (∀ u ∈ users, CentMul u.2) →
    ((cl.foldl (apply_claim unit) users).map fun u => u.2).sum
        ≤ ((users.map fun u => u.2).sum) + unit * ((cl.map fun c => c.2).sum)
          + (cl.length : ℚ) / 200
      ∧ ((cl.foldl (apply_claim unit) users).map fun u => u.1) = (users.map fun u => u.1)
      ∧ (∀ u ∈ cl.foldl (apply_claim unit) users, CentMul u.2) := by
  induction cl with
  | nil =>
    intro users hnd hcm
    refine ⟨by simp, by simp, by simpa using hcm⟩
  | cons c t ih =>
    intro users hnd hcm
    have hr : 0 ≤ round2 (unit * c.2) :=
      round2_nonneg _ (mul_nonneg hu (hq c (List.mem_cons_self c t)))
    have hstep_le := sum_apply_claim_le unit users c hnd hcm hr
    have hstep_fst := apply_claim_fst unit users c
    have hstep_cm := apply_claim_centMul unit users c hcm
    have hndstep : ((apply_claim unit users c).map fun u => u.1).Nodup := by
      rw [hstep_fst]; exact hnd
    have hih := ih (fun d hd => hq d (List.mem_cons_of_mem _ hd))
      (apply_claim unit users c) hndstep hstep_cm
    have hfold : (c :: t).foldl (apply_claim unit) users
        = t.foldl (apply_claim unit) (apply_claim unit users c) := rfl
    rw [hfold]
    refine ⟨?_, hih.2.1.trans hstep_fst, hih.2.2⟩
    have hrle := round2_le (unit * c.2)
    have hlen : ((c :: t).length : ℚ) = (t.length : ℚ) + 1 := by
      rw [List.length_cons]
      push_cast
      ring
    rw [List.map_cons, List.sum_cons, hlen]
    have h1 := hih.1
    nlinarith [h1, hstep_le, hrle]

theorem unit_cost_pos_eq (it : LItem) (h : 0 < it.quantity) :
    unit_cost_of it = it.cost / it.quantity := by
  unfold unit_cost_of
  rw [if_pos h]

theorem items_fold_spec (cm : ClaimMap) (items : List LItem)
    (hitems : ∀ it ∈ items, 0 < it.quantity ∧ 0 ≤ it.cost)
    (hclaims : ∀ it ∈ items, ((claims_for cm it.id).map fun c => c.2).sum ≤ it.quantity
      ∧ ∀ c ∈ claims_for cm it.id, 0 ≤ c.2) :
    ∀ acc : List (String × ℚ) × ℚ, (acc.1.map fun u => u.1).Nodup →
      (∀ u ∈ acc.1, CentMul u.2) →
    (((items.foldl (item_step cm) acc).1.map fun u => u.2).sum
        ≤ ((acc.1.map fun u => u.2).sum) + ((items.map fun it => it.cost).sum)
          + (claim_count items cm : ℚ) / 200)
      ∧ (∀ u ∈ (items.foldl (item_step cm) acc).1, CentMul u.2) := by
  induction items with
  | nil =>
    intro acc hnd hcm
    refine ⟨by simp [claim_count], by simpa using hcm⟩
  | cons it t ih =>
    intro acc hnd hcm
    have hq := (hitems it (List.mem_cons_self it t)).1
    have hc := (hitems it (List.mem_cons_self it t)).2
    have hunit : 0 ≤ unit_cost_of it := by
      rw [unit_cost_pos_eq it hq]
      exact div_nonneg hc hq.le
    have hcl := hclaims it (List.mem_cons_self it t)
    have hspec := claims_fold_spec (unit_cost_of it) hunit (claims_for cm it.id) hcl.2
      acc.1 hnd hcm
    have hcostbound : unit_cost_of it * ((claims_for cm it.id).map fun c => c.2).sum
        ≤ it.cost := by
      have h1 : unit_cost_of it * ((claims_for cm it.id).map fun c => c.2).sum
          ≤ unit_cost_of it * it.quantity :=
        mul_le_mul_of_nonneg_left hcl.1 hunit
      have h2 : unit_cost_of it * it.quantity = it.cost := by
        rw [unit_cost_pos_eq it hq]
        field_simp
      linarith
    have hndstep : (((item_step cm acc it).1).map fun u => u.1).Nodup := by
      show (((claims_for cm it.id).foldl (apply_claim (unit_cost_of it)) acc.1).map
        fun u => u.1).Nodup
      rw [hspec.2.1]
      exact hnd
    have hcmstep : ∀ u ∈ (item_step cm acc it).1, CentMul u.2 := hspec.2.2
    have hih := ih (fun j hj => hitems j (List.mem_cons_of_mem _ hj))
      (fun j hj => hclaims j (List.mem_cons_of_mem _ hj))
      (item_step cm acc it) hndstep hcmstep
    have hfold : (it :: t).foldl (item_step cm) acc
        = t.foldl (item_step cm) (item_step cm acc it) := rfl
    rw [hfold]
    refine ⟨?_, hih.2⟩
    have hcnt : (claim_count (it :: t) cm : ℚ)
        = ((claims_for cm it.id).length : ℚ) + (claim_count t cm : ℚ) := by
      unfold claim_count
      push_cast [List.map_cons, List.sum_cons]
      ring
    rw [List.map_cons, List.sum_cons, hcnt]
    have h1 := hih.1
    have h2 := hspec.1
    have hstep1 : (item_step cm acc it).1
        = (claims_for cm it.id).foldl (apply_claim (unit_cost_of it)) acc.1 := rfl
    rw [hstep1] at h1
    linarith

/-- C1 (amended): in `compute_lobby_summary`, whenever the participants' base
totals are nonnegative and sum to the (positive) item subtotal and the grand
total is at least the item subtotal, the extra shares in integer cents sum to
exactly `round((grand_total - item_subtotal) * 100)`. -/
theorem C1_cent_exact_fully_claimed (items : List LItem) (cm : ClaimMap)
    (participants : List (String × String)) (rt : RTotals)
    (hpos : 0 < (compute_lobby_summary items cm participants rt).item_subtotal)
    (hge : (compute_lobby_summary items cm participants rt).item_subtotal
        ≤ (compute_lobby_summary items cm participants rt).grand_total)
    (hnn : ∀ u ∈ (compute_lobby_summary items cm participants rt).users, 0 ≤ u.base)
    (hfull : (((compute_lobby_summary items cm participants rt).users.map
        fun u => u.base).sum)
        = (compute_lobby_summary items cm participants rt).item_subtotal) :
    (((compute_lobby_summary items cm participants rt).users.map
        fun u => u.extraCents).sum)
      = rne (((compute_lobby_summary items cm participants rt).grand_total
        - (compute_lobby_summary items cm participants rt).item_subtotal) * 100) := by
  simp only [compute_lobby_summary] at hpos hge hnn hfull ⊢
  have hlen : (summary_users0 items cm participants).length
      = (summary_shares items cm participants rt).length := by
    unfold summary_shares
    rw [distribute_extra_length, List.length_map]
  have husers : summary_users items cm participants rt
      = List.zipWith mk_sum_user (summary_users0 items cm participants)
        (summary_shares items cm participants rt) := rfl
  have hB : ((summary_users items cm participants rt).map fun u => u.base)
      = (summary_users0 items cm participants).map fun u => u.2 := by
    rw [husers, zipWith_map_base _ _ hlen]
  rw [husers, zipWith_map_extraCents _ _ hlen]
  have hsum : (((summary_users0 items cm participants).map fun u => u.2).sum)
      = summary_item_subtotal items rt := by
    rw [← hB]
    exact hfull
  have hnn2 : ∀ w ∈ (summary_users0 items cm participants).map fun u => u.2, 0 ≤ w := by
    intro w hw
    rw [← hB] at hw
    obtain ⟨u, hu, rfl⟩ := List.mem_map.mp hw
    exact hnn u hu
  have hEnn : 0 ≤ summary_extra_cents items rt :=
    rne_nonneg _ (mul_nonneg (le_max_left 0 _) (by norm_num))
  have hdist := distribute_extra_sum ((summary_users0 items cm participants).map
      fun u => u.2) (summary_item_subtotal items rt) (summary_extra_cents items rt)
    hnn2 hsum hpos hEnn
  rw [show summary_shares items cm participants rt
    = distribute_extra ((summary_users0 items cm participants).map fun u => u.2)
      (summary_item_subtotal items rt) (summary_extra_cents items rt) from rfl, hdist]
  unfold summary_extra_cents summary_extra_charges
  have h0 : 0 ≤ round2 (summary_grand_total items rt - summary_item_subtotal items rt) :=
    round2_nonneg _ (by linarith)
  rw [max_eq_right h0, round2_mul_hundred, rne_intCast]

/-- C1 (counterexample to the claim as stated): a lobby with `grand_total =
110 ≥ item_subtotal = 100` whose single participant has base total `50`
(half the items claimed) receives only `501` extra-share cents, not
`round((110 - 100) * 100) = 1000`: the remainder loop hands out at most one
cent per participant, so unclaimed subtotal leaks cents. -/
theorem C1_counterexample :
    (compute_lobby_summary [⟨"itm_1", "Item A", 2, 100, ""⟩]
        [("itm_1", [("a", 1)])] [("a", "Alice")] ⟨some 100, some 110⟩).item_subtotal
      ≤ (compute_lobby_summary [⟨"itm_1", "Item A", 2, 100, ""⟩]
        [("itm_1", [("a", 1)])] [("a", "Alice")] ⟨some 100, some 110⟩).grand_total
    ∧ ((compute_lobby_summary [⟨"itm_1", "Item A", 2, 100, ""⟩]
        [("itm_1", [("a", 1)])] [("a", "Alice")] ⟨some 100, some 110⟩).users.map
          fun u => u.extraCents).sum
      ≠ rne (((compute_lobby_summary [⟨"itm_1", "Item A", 2, 100, ""⟩]
          [("itm_1", [("a", 1)])] [("a", "Alice")] ⟨some 100, some 110⟩).grand_total
        - (compute_lobby_summary [⟨"itm_1", "Item A", 2, 100, ""⟩]
          [("itm_1", [("a", 1)])] [("a", "Alice")] ⟨some 100, some 110⟩).item_subtotal)
        * 100) := by
  have h0 : summary_users0 [⟨"itm_1", "Item A", 2, 100, ""⟩]
      [("itm_1", [("a", 1)])] [("a", "Alice")] = [("a", (50:ℚ))] := by
    simp +decide [summary_users0, base_totals, item_step, claims_for, apply_claim,
      unit_cost_of, round2, rne]
    norm_num
  have hsub : summary_item_subtotal [⟨"itm_1", "Item A", 2, 100, ""⟩]
      ⟨some 100, some 110⟩ = 100 := by
    simp +decide [summary_item_subtotal, summary_manual_added, lower_str, round2, rne]
    norm_num
  have hgrand : summary_grand_total [⟨"itm_1", "Item A", 2, 100, ""⟩]
      ⟨some 100, some 110⟩ = 110 := by
    simp +decide [summary_grand_total, summary_manual_added, lower_str, round2, rne]
    norm_num
  have hcents : summary_extra_cents [⟨"itm_1", "Item A", 2, 100, ""⟩]
      ⟨some 100, some 110⟩ = 1000 := by
    rw [summary_extra_cents, summary_extra_charges, hsub, hgrand]
    norm_num [round2, rne]
  have hraws : distribute_raws [(50:ℚ)] 100 1000 = [500] := by
    norm_num [distribute_raws]
  have hfloors : distribute_floors [(50:ℚ)] 100 1000 = [500] := by
    norm_num [distribute_floors, hraws]
  have hrem : distribute_rem [(50:ℚ)] 100 1000 = 500 := by
    rw [distribute_rem, hfloors]
    decide
  have horder : distribute_order [(50:ℚ)] 100 1000 = [0] := by
    simp [distribute_order, List.insertionSort]
  have hshares : summary_shares [⟨"itm_1", "Item A", 2, 100, ""⟩]
      [("itm_1", [("a", 1)])] [("a", "Alice")] ⟨some 100, some 110⟩ = [501] := by
    rw [summary_shares, h0, hsub, hcents]
    rw [show ([("a", (50:ℚ))].map fun u => u.2) = [(50:ℚ)] from rfl]
    rw [distribute_extra, if_pos ⟨by norm_num, by norm_num⟩, hrem, if_pos (by norm_num),
      hfloors, horder]
    decide
  refine ⟨?_, ?_⟩
  · simp only [compute_lobby_summary, hsub, hgrand]
    norm_num
  · simp only [compute_lobby_summary, summary_users, h0, hshares, hsub, hgrand]
    simp [mk_sum_user]
    norm_num [rne]

/-- C1 (witness): a lobby whose two participants claim everything (base
totals 50 + 50 = item subtotal 100, grand total 110) satisfies every
hypothesis of the amended theorem, and the extra-share cents sum to exactly
`round((110 - 100) * 100) = 1000`. -/
theorem C1_cent_exact_fully_claimed_witness :
    (0 < (compute_lobby_summary [⟨"itm_1", "Item A", 2, 100, ""⟩]
        [("itm_1", [("a", 1), ("b", 1)])] [("a", "Alice"), ("b", "Bob")]
        ⟨some 100, some 110⟩).item_subtotal)
    ∧ (((compute_lobby_summary [⟨"itm_1", "Item A", 2, 100, ""⟩]
        [("itm_1", [("a", 1), ("b", 1)])] [("a", "Alice"), ("b", "Bob")]
        ⟨some 100, some 110⟩).users.map fun u => u.extraCents).sum
      = rne (((compute_lobby_summary [⟨"itm_1", "Item A", 2, 100, ""⟩]
          [("itm_1", [("a", 1), ("b", 1)])] [("a", "Alice"), ("b", "Bob")]
          ⟨some 100, some 110⟩).grand_total
        - (compute_lobby_summary [⟨"itm_1", "Item A", 2, 100, ""⟩]
          [("itm_1", [("a", 1), ("b", 1)])] [("a", "Alice"), ("b", "Bob")]
          ⟨some 100, some 110⟩).item_subtotal) * 100)) := by
  have h0 : summary_users0 [⟨"itm_1", "Item A", 2, 100, ""⟩]
      [("itm_1", [("a", 1), ("b", 1)])] [("a", "Alice"), ("b", "Bob")]
      = [("a", (50:ℚ)), ("b", (50:ℚ))] := by
    simp +decide [summary_users0, base_totals, item_step, claims_for, apply_claim,
      unit_cost_of, round2, rne]
    norm_num
  have hsub : summary_item_subtotal [⟨"itm_1", "Item A", 2, 100, ""⟩]
      ⟨some 100, some 110⟩ = 100 := by
    simp +decide [summary_item_subtotal, summary_manual_added, lower_str, round2, rne]
    norm_num
  have hgrand : summary_grand_total [⟨"itm_1", "Item A", 2, 100, ""⟩]
      ⟨some 100, some 110⟩ = 110 := by
    simp +decide [summary_grand_total, summary_manual_added, lower_str, round2, rne]
    norm_num
  have hpos : 0 < (compute_lobby_summary [⟨"itm_1", "Item A", 2, 100, ""⟩]
      [("itm_1", [("a", 1), ("b", 1)])] [("a", "Alice"), ("b", "Bob")]
      ⟨some 100, some 110⟩).item_subtotal := by
    simp only [compute_lobby_summary, hsub]
    norm_num
  have hlen : (summary_users0 [⟨"itm_1", "Item A", 2, 100, ""⟩]
      [("itm_1", [("a", 1), ("b", 1)])] [("a", "Alice"), ("b", "Bob")]).length
      = (summary_shares [⟨"itm_1", "Item A", 2, 100, ""⟩]
        [("itm_1", [("a", 1), ("b", 1)])] [("a", "Alice"), ("b", "Bob")]
        ⟨some 100, some 110⟩).length := by
    rw [summary_shares, distribute_extra_length, List.length_map]
  have hB : ((compute_lobby_summary [⟨"itm_1", "Item A", 2, 100, ""⟩]
      [("itm_1", [("a", 1), ("b", 1)])] [("a", "Alice"), ("b", "Bob")]
      ⟨some 100, some 110⟩).users.map fun u => u.base)
      = [(50:ℚ), (50:ℚ)] := by
    simp only [compute_lobby_summary, summary_users]
    rw [zipWith_map_base _ _ hlen, h0]
    rfl
  refine ⟨hpos, C1_cent_exact_fully_claimed _ _ _ _ hpos ?_ ?_ ?_⟩
  · simp only [compute_lobby_summary, hsub, hgrand]
    norm_num
  · intro u hu
    simp only [compute_lobby_summary, summary_users] at hu
    have hmem : u.base ∈ ((List.zipWith mk_sum_user (summary_users0
        [⟨"itm_1", "Item A", 2, 100, ""⟩] [("itm_1", [("a", 1), ("b", 1)])]
        [("a", "Alice"), ("b", "Bob")]) (summary_shares [⟨"itm_1", "Item A", 2, 100, ""⟩]
        [("itm_1", [("a", 1), ("b", 1)])] [("a", "Alice"), ("b", "Bob")]
        ⟨some 100, some 110⟩)).map fun u => u.base) := List.mem_map_of_mem _ hu
    have : ((List.zipWith mk_sum_user (summary_users0
        [⟨"itm_1", "Item A", 2, 100, ""⟩] [("itm_1", [("a", 1), ("b", 1)])]
        [("a", "Alice"), ("b", "Bob")]) (summary_shares [⟨"itm_1", "Item A", 2, 100, ""⟩]
        [("itm_1", [("a", 1), ("b", 1)])] [("a", "Alice"), ("b", "Bob")]
        ⟨some 100, some 110⟩)).map fun u => u.base) = [(50:ℚ), (50:ℚ)] := by
      rw [zipWith_map_base _ _ hlen, h0]
      rfl
    rw [this] at hmem
    simp at hmem
    rw [hmem]
    norm_num
  · rw [hB]
    simp only [compute_lobby_summary, hsub]
    norm_num [List.sum_cons, List.sum_nil]

theorem rne_zero : rne 0 = 0 := by
  simpa using rne_intCast 0

theorem sum_map_zero {α : Type} (l : List α) : (l.map fun _ => (0:ℚ)).sum = 0 := by
  induction l with
  | nil => simp
  | cons x t ih => simp [ih]

/-- C2 (amended): with no detected receipt totals (so the grand total falls
back to the sum of item costs), positive item quantities, nonnegative
cent-multiple costs and a consistent claim set (per-item claims nonnegative
and summing to at most the quantity), the participants' settlement totals sum
to at most the grand total plus half a cent per claim row -- each per-claim
`round(unit_cost * qty, 2)` can exceed its exact value by at most `1/200`. -/
theorem C2_totals_bound (items : List LItem) (cm : ClaimMap)
    (participants : List (String × String))
    (hnd : (participants.map fun p => p.1).Nodup)
    (hitems : ∀ it ∈ items, 0 < it.quantity ∧ 0 ≤ it.cost ∧ CentMul it.cost)
    (hclaims : ∀ it ∈ items, ((claims_for cm it.id).map fun c => c.2).sum ≤ it.quantity
      ∧ ∀ c ∈ claims_for cm it.id, 0 ≤ c.2) :
    (((compute_lobby_summary items cm participants ⟨none, none⟩).users.map
        fun u => u.total).sum)
      ≤ (compute_lobby_summary items cm participants ⟨none, none⟩).grand_total
        + (claim_count items cm : ℚ) / 200 := by
  have hgrand_eq : summary_grand_total items ⟨none, none⟩
      = summary_computed_subtotal items := rfl
  have hcents : summary_extra_cents items ⟨none, none⟩ = 0 := by
    rw [summary_extra_cents, summary_extra_charges]
    rw [show summary_grand_total items ⟨none, none⟩
      - summary_item_subtotal items ⟨none, none⟩ = 0 from by
        rw [hgrand_eq]
        rw [show summary_item_subtotal items ⟨none, none⟩
          = summary_computed_subtotal items from rfl]
        ring]
    rw [round2_zero]
    simpa using rne_zero
  have hnd0 : ((participants.map fun p => (p.1, (0:ℚ))).map fun u => u.1).Nodup := by
    rw [List.map_map]
    exact hnd
  have hcm0 : ∀ u ∈ participants.map fun p => (p.1, (0:ℚ)), CentMul u.2 := by
    intro u hu
    obtain ⟨p, _, rfl⟩ := List.mem_map.mp hu
    exact centMul_zero
  have hspec := items_fold_spec cm items
    (fun it hit => ⟨(hitems it hit).1, (hitems it hit).2.1⟩) hclaims
    (participants.map fun p => (p.1, (0:ℚ)), 0) hnd0 hcm0
  have hu0 : summary_users0 items cm participants
      = (items.foldl (item_step cm) (participants.map fun p => (p.1, (0:ℚ)), 0)).1 := rfl
  have hcmu : ∀ u ∈ summary_users0 items cm participants, CentMul u.2 := by
    rw [hu0]
    exact hspec.2
  have hinit0 : (((participants.map fun p => (p.1, (0:ℚ))).map fun u => u.2).sum) = 0 := by
    rw [List.map_map]
    exact sum_map_zero participants
  have hbase_le : ((summary_users0 items cm participants).map fun u => u.2).sum
      ≤ ((items.map fun it => it.cost).sum) + (claim_count items cm : ℚ) / 200 := by
    have h1 := hspec.1
    rw [hinit0] at h1
    rw [hu0]
    linarith
  have hlen : (summary_users0 items cm participants).length
      = (summary_shares items cm participants ⟨none, none⟩).length := by
    rw [summary_shares, distribute_extra_length, List.length_map]
  have hshares0 : ∀ c ∈ summary_shares items cm participants ⟨none, none⟩, c = 0 := by
    intro c hc
    rw [summary_shares, hcents] at hc
    rw [distribute_extra, if_neg (by intro h; exact lt_irrefl 0 h.1)] at hc
    obtain ⟨_, _, rfl⟩ := List.mem_map.mp hc
    rfl
  have htotals : ((compute_lobby_summary items cm participants ⟨none, none⟩).users.map
      fun u => u.total).sum = ((summary_users0 items cm participants).map
        fun u => u.2).sum := by
    simp only [compute_lobby_summary, summary_users]
    rw [zipWith_total_zeros _ _ hlen hshares0 hcmu]
  have hcostsum : CentMul ((items.map fun it => it.cost).sum) := by
    apply centMul_list_sum
    intro x hx
    obtain ⟨it, hit, rfl⟩ := List.mem_map.mp hx
    exact (hitems it hit).2.2
  have hgrand : (compute_lobby_summary items cm participants ⟨none, none⟩).grand_total
      = ((items.map fun it => it.cost).sum) := by
    simp only [compute_lobby_summary]
    rw [hgrand_eq, summary_computed_subtotal, round2_centMul hcostsum]
  rw [htotals, hgrand]
  exact hbase_le

/-- C2 (counterexample to the claim as stated): one item of cost `0.50` and
quantity 3, fully claimed by three participants (a consistent claim set),
yields three base totals of `round(0.50/3, 2) = 0.17`, so the settlement
totals sum to `0.51`, exceeding the grand total `0.50`. -/
theorem C2_counterexample :
    (∀ it ∈ [(⟨"itm_1", "Item A", 3, 1/2, ""⟩ : LItem)],
      ((claims_for [("itm_1", [("a", 1), ("b", 1), ("c", 1)])] it.id).map
        fun c => c.2).sum ≤ it.quantity
      ∧ ∀ c ∈ claims_for [("itm_1", [("a", 1), ("b", 1), ("c", 1)])] it.id, 0 ≤ c.2)
    ∧ ¬ (((compute_lobby_summary [⟨"itm_1", "Item A", 3, 1/2, ""⟩]
        [("itm_1", [("a", 1), ("b", 1), ("c", 1)])]
        [("a", "A"), ("b", "B"), ("c", "C")] ⟨none, none⟩).users.map
          fun u => u.total).sum
      ≤ (compute_lobby_summary [⟨"itm_1", "Item A", 3, 1/2, ""⟩]
        [("itm_1", [("a", 1), ("b", 1), ("c", 1)])]
        [("a", "A"), ("b", "B"), ("c", "C")] ⟨none, none⟩).grand_total) := by
  have h0 : summary_users0 [⟨"itm_1", "Item A", 3, 1/2, ""⟩]
      [("itm_1", [("a", 1), ("b", 1), ("c", 1)])]
      [("a", "A"), ("b", "B"), ("c", "C")]
      = [("a", (17:ℚ)/100), ("b", (17:ℚ)/100), ("c", (17:ℚ)/100)] := by
    simp +decide [summary_users0, base_totals, item_step, claims_for, apply_claim,
      unit_cost_of, round2, rne]
    simp only [Int.fract]
    norm_num
  have hsub : summary_item_subtotal [⟨"itm_1", "Item A", 3, 1/2, ""⟩] ⟨none, none⟩
      = 1/2 := by
    show summary_computed_subtotal _ = 1/2
    simp [summary_computed_subtotal]
    norm_num [round2, rne]
  have hgrand : summary_grand_total [⟨"itm_1", "Item A", 3, 1/2, ""⟩] ⟨none, none⟩
      = 1/2 := hsub
  have hcents : summary_extra_cents [⟨"itm_1", "Item A", 3, 1/2, ""⟩] ⟨none, none⟩
      = 0 := by
    rw [summary_extra_cents, summary_extra_charges, hsub, hgrand]
    norm_num [round2_zero, rne_zero]
  have hsharesc : summary_shares [⟨"itm_1", "Item A", 3, 1/2, ""⟩]
      [("itm_1", [("a", 1), ("b", 1), ("c", 1)])]
      [("a", "A"), ("b", "B"), ("c", "C")] ⟨none, none⟩ = [0, 0, 0] := by
    rw [summary_shares, h0, hcents]
    rw [distribute_extra, if_neg (by intro h; exact lt_irrefl 0 h.1)]
    rfl
  constructor
  · intro it hit
    simp at hit
    subst hit
    constructor
    · simp [claims_for]
      norm_num
    · intro c hc
      simp [claims_for] at hc
      rcases hc with rfl | rfl | rfl <;> norm_num
  · simp only [compute_lobby_summary, summary_users, h0, hsharesc, hgrand]
    simp [mk_sum_user, round2, rne]
    norm_num

/-- C2 (witness): the amended bound applied to the counterexample lobby --
totals `0.51` stay below grand total `0.50` plus three half-cents. -/
theorem C2_totals_bound_witness :
    (([("a", "A"), ("b", "B"), ("c", "C")].map fun p => p.1).Nodup)
    ∧ (((compute_lobby_summary [⟨"itm_1", "Item A", 3, 1/2, ""⟩]
        [("itm_1", [("a", 1), ("b", 1), ("c", 1)])]
        [("a", "A"), ("b", "B"), ("c", "C")] ⟨none, none⟩).users.map
          fun u => u.total).sum
      ≤ (compute_lobby_summary [⟨"itm_1", "Item A", 3, 1/2, ""⟩]
        [("itm_1", [("a", 1), ("b", 1), ("c", 1)])]
        [("a", "A"), ("b", "B"), ("c", "C")] ⟨none, none⟩).grand_total
        + (claim_count [⟨"itm_1", "Item A", 3, 1/2, ""⟩]
          [("itm_1", [("a", 1), ("b", 1), ("c", 1)])] : ℚ) / 200) := by
  refine ⟨by decide, C2_totals_bound _ _ _ (by decide) ?_ ?_⟩
  · intro it hit
    simp at hit
    subst hit
    refine ⟨by norm_num, by norm_num, ⟨50, by norm_num⟩⟩
  · intro it hit
    simp at hit
    subst hit
    constructor
    · simp [claims_for]
      norm_num
    · intro c hc
      simp [claims_for] at hc
      rcases hc with rfl | rfl | rfl <;> norm_num

/-!
Quality scoring, fallback arbitration and the needs-review list
(`compute_quality_score`, `scan_bill`, `build_needs_review`).
-/

/-- Extracted purchase row (`ParsedItem` dictionaries built by the
extractor). -/
structure PItem where
  name : String
  quantity : ℚ
  unit_price : ℚ
  cost : ℚ

/-- Needs-review entry `{line, reason}`. -/
abbrev ReviewEntry := String × String

/-- Quality score (`compute_quality_score`, `main.py` lines 836-846). -/
def compute_quality_score (items : List PItem) (needs_review : List ReviewEntry) : ℚ :=
  if items.isEmpty then 0
  else
    max 0 (min 1
      (3/4 + (if 3 ≤ items.length then (1:ℚ)/10 else 0)
        + (if 6 ≤ items.length then (1:ℚ)/20 else 0)
        - min ((9:ℚ)/20) (3/50 * (needs_review.length : ℚ))))

/-- C9: adding needs-review entries to a fixed item set never increases the
quality score returned by `compute_quality_score`. -/
theorem C9_quality_monotone (items : List PItem) (r1 r2 : List ReviewEntry)
    (h : r1.length ≤ r2.length) :
    compute_quality_score items r2 ≤ compute_quality_score items r1 := by
  unfold compute_quality_score
  split
  · exact le_refl 0
  · have hc : (r1.length : ℚ) ≤ (r2.length : ℚ) := by exact_mod_cast h
    have hmul : (3/50 : ℚ) * r1.length ≤ 3/50 * r2.length := by linarith
    have hmin : min ((9:ℚ)/20) (3/50 * (r1.length : ℚ))
        ≤ min ((9:ℚ)/20) (3/50 * (r2.length : ℚ)) :=
      min_le_min (le_refl _) hmul
    exact max_le_max (le_refl 0) (min_le_min (le_refl 1) (by linarith))

/-- C9 (witness): an extra review entry lowers the score of a one-item set
from 0.75 to 0.69. -/
theorem C9_quality_monotone_witness :
    ([] : List ReviewEntry).length ≤ [("x 1.00 2.00", "unparsed_line")].length
    ∧ compute_quality_score [⟨"Dish", 1, 2, 2⟩] [("x 1.00 2.00", "unparsed_line")]
      ≤ compute_quality_score [⟨"Dish", 1, 2, 2⟩] [] :=
  ⟨by decide, C9_quality_monotone [⟨"Dish", 1, 2, 2⟩] [] [("x 1.00 2.00", "unparsed_line")]
    (by decide)⟩

/-- Fallback trigger (`scan_bill`, `main.py` lines 1834-1839);
`fallback_attempted` is set to exactly this value. -/
def should_try_fallback (use_hybrid force_fallback : Bool) (items : List PItem)
    (needs_review : List ReviewEntry) : Bool :=
  use_hybrid && (force_fallback
    || decide (items.length < 2)
    || decide (compute_quality_score items needs_review < 13/25)
    || decide (max 3 items.length < needs_review.length))

/-- Trigger condition as worded by the specification: item count below two,
or quality score below 0.52, or review entries exceeding `max(3, item_count)`,
or the explicit force flag -- with no mention of the hybrid-mode gate. -/
def fallback_spec_condition (force_fallback : Bool) (items : List PItem)
    (needs_review : List ReviewEntry) : Prop :=
  items.length < 2 ∨ compute_quality_score items needs_review < 13/25
    ∨ max 3 items.length < needs_review.length ∨ force_fallback = true

/-- C5 (amended): the secondary source is attempted exactly when hybrid mode
is enabled (`use_hybrid`) and the specification's disjunction holds. -/
theorem C5_fallback_trigger (uh f : Bool) (items : List PItem)
    (rv : List ReviewEntry) :
    should_try_fallback uh f items rv = true
      ↔ (uh = true ∧ fallback_spec_condition f items rv) := by
  unfold should_try_fallback fallback_spec_condition
  simp only [Bool.and_eq_true, Bool.or_eq_true, decide_eq_true_eq]
  tauto

/-- C5 (counterexample to the claim as stated): with hybrid mode disabled
the force flag alone does not trigger the fallback, although the
specification's condition holds. -/
theorem C5_counterexample :
    should_try_fallback false true [] [] = false
    ∧ fallback_spec_condition true [] [] :=
  ⟨rfl, Or.inl (by decide)⟩

/-- Substring test at the head of a character list. -/
def starts_with_chars : List Char → List Char → Bool
  | [], _ => true
  | _ :: _, [] => false
  | n :: ns, h :: hs => n = h && starts_with_chars ns hs

/-- Substring containment on character lists (Python `needle in hay`). -/
def contains_chars (hay needle : List Char) : Bool :=
  match hay with
  | [] => needle.isEmpty
  | _ :: t => starts_with_chars needle hay || contains_chars t needle

/-- Python substring test `needle in hay`. -/
def str_contains (hay needle : String) : Bool := contains_chars hay.data needle.data

/-- Keyword set `HARD_SKIP_WORDS` (`main.py` lines 95-112). -/
def HARD_SKIP_WORDS : List String :=
  ["total", "subtotal", "tax", "vat", "gst", "cgst", "sgst", "service charge",
   "change", "cash", "visa", "mastercard", "amex", "paid", "payment", "balance"]

/-- Head-character test `line_text.startswith("#")`. -/
def starts_hash (s : String) : Bool :=
  match s.data with
  | c :: _ => c = '#'
  | [] => false

/-- Skip decision `should_skip_line(text, in_item_table=True)`: inside a
table only the hard-skip keywords and a leading hash apply (the non-item
pattern is bypassed). -/
def should_skip_line_in_table (text : String) : Bool :=
  HARD_SKIP_WORDS.any (fun w => str_contains (lower_str text) w) || starts_hash text

/-- Monetary-looking test `re.search(r"\d+\.\d{1,2}", s)`: some digit,
a dot and a further digit in adjacent positions. -/
def has_money_marker_aux : List Char → Bool
  | c1 :: '.' :: c2 :: rest =>
    (c1.isDigit && c2.isDigit) || has_money_marker_aux ('.' :: c2 :: rest)
  | _ :: rest => has_money_marker_aux rest
  | [] => false

def has_money_marker (s : String) : Bool := has_money_marker_aux s.data

/-- Alphabetic-content test `re.search(r"[A-Za-z]", s)`. -/
def has_alpha (s : String) : Bool := s.data.any fun c => c.isAlpha

/-- Clustered OCR line as seen by `build_needs_review`: the stripped joined
raw text and its `normalize_line_text` form (normalization itself is
regex-driven and supplied by the caller). -/
structure RLine where
  raw : String
  normalized : String

/-- Review-list builder (`build_needs_review`, `main.py` lines 805-833). -/
def build_needs_review (lines : List RLine) (items : List PItem) :
    List ReviewEntry :=
  ((lines.filterMap fun ln =>
      if ln.raw = "" then none
      else if ln.normalized = "" then none
      else if ¬ (has_money_marker ln.normalized ∧ has_alpha ln.normalized) then none
      else if should_skip_line_in_table ln.normalized then none
      else if (items.map fun i => lower_str i.name).any
          (fun name => name ≠ "" && str_contains (lower_str ln.normalized) name) then none
      else some (ln.raw, "unparsed_line"))
    ++ items.filterMap fun it =>
      if 12 < it.quantity ∧ it.unit_price < 15 then
        some (it.name, "suspicious_quantity")
      else none).take 20

/-- C10: the needs-review list is capped at 20 entries for every input. -/
theorem C10_needs_review_cap (lines : List RLine) (items : List PItem) :
    (build_needs_review lines items).length ≤ 20 := by
  unfold build_needs_review
  exact List.length_take_le 20 _

/-!
Totals detection (`detect_bill_totals`, `main.py` lines 849-953) and its
number-extraction regexes (`parse_trailing_amount`, `parse_money_values`,
`parse_last_signed_amount`).

Every amount those regexes can capture has at most two decimal digits, so it
is an exact whole number of cents; amounts are therefore carried as integer
cents (`ℤ`) and converted to rationals only in the final assembly, where the
source's `round(x, 2)` is the identity on them (`round2_centMul`).  The
parsers implement the regexes' ordered-alternation and greedy-with-backtrack
semantics on character lists.
-/

/-- Python regex word character `\w` (ASCII). -/
def isWordChar (c : Char) : Bool := c.isAlphanum || c = '_'

/-- Python regex whitespace `\s` (ASCII). -/
def isPySpace (c : Char) : Bool :=
  c = ' ' || c = '\t' || c = '\n' || c = '\x0b' || c = '\x0c' || c = '\r'

/-- Split a maximal run of digits off the front. -/
def spanDigits (cs : List Char) : List Char × List Char :=
  (cs.takeWhile Char.isDigit, cs.dropWhile Char.isDigit)

/-- Numeric value of a big-endian digit-character list. -/
def natOfDigits (ds : List Char) : ℕ :=
  ds.foldl (fun a c => 10 * a + (c.toNat - '0'.toNat)) 0

/-- Cent value of a captured 1-2 digit fraction part. -/
def fracCents (fs : List Char) : ℕ :=
  match fs with
  | [a] => 10 * (a.toNat - '0'.toNat)
  | [a, b] => 10 * (a.toNat - '0'.toNat) + (b.toNat - '0'.toNat)
  | _ => 0

/-- Collapse every whitespace run to a single blank (`re.sub(r"\s+", " ")`). -/
def collapse_ws : List Char → List Char
  | [] => []
  | c :: t =>
    if isPySpace c then
      match t with
      | d :: _ => if isPySpace d then collapse_ws t else ' ' :: collapse_ws t
      | [] => [' ']
    else c :: collapse_ws t

/-- Python `str.strip()`. -/
def strip_ws (l : List Char) : List Char :=
  ((l.dropWhile isPySpace).reverse.dropWhile isPySpace).reverse

/-- Python `str.rstrip(":;-")`. -/
def rstrip_punct (l : List Char) : List Char :=
  (l.reverse.dropWhile fun c => c = ':' || c = ';' || c = '-').reverse

/-- Whitespace-collapsed, stripped line text (tax-breakdown labels). -/
def clean_label (line : String) : String := ⟨strip_ws (collapse_ws line.data)⟩

/-- Comma groups `(?:,\d{3})+` under the end-anchored trailing pattern: each
group is a comma and exactly three digits, and a failure anywhere rejects the
whole alternative (backtracking to fewer groups leaves a comma or digit that
the anchored tail cannot consume). -/
def trail_groups : List Char → Option (List Char × List Char)
  | ',' :: d1 :: d2 :: d3 :: rest =>
    if d1.isDigit && d2.isDigit && d3.isDigit then
      match rest with
      | ',' :: r2 =>
        match trail_groups (',' :: r2) with
        | some (gs, r) => some (d1 :: d2 :: d3 :: gs, r)
        | none => none
      | _ => some ([d1, d2, d3], rest)
    else none
  | _ => none

/-- Tail of the trailing-amount pattern after the integer part: optional
`\.\d{1,2}` then only whitespace to the end of the string. -/
def trail_finish (neg : Bool) (intDs : List Char) (rest : List Char) : Option ℤ :=
  let sign : ℤ := if neg then -1 else 1
  match rest with
  | '.' :: r2 =>
    let fs := (spanDigits r2).1
    let r3 := (spanDigits r2).2
    if (fs.length = 1 || fs.length = 2) && r3.all isPySpace then
      some (sign * ((natOfDigits intDs : ℤ) * 100 + (fracCents fs : ℤ)))
    else none
  | _ =>
    if rest.all isPySpace then some (sign * (natOfDigits intDs : ℤ) * 100) else none

/-- Attempt of the full trailing pattern
`(-?\d{1,3}(?:,\d{3})*|-?\d+)(?:\.(\d{1,2}))?\s*$` at this position. -/
def trail_shape (cs : List Char) : Option ℤ :=
  let neg := match cs with | '-' :: _ => true | _ => false
  let cs1 := if neg then cs.tail else cs
  let ds := (spanDigits cs1).1
  let r1 := (spanDigits cs1).2
  if ds.isEmpty then none
  else
    match r1 with
    | ',' :: r2 =>
      if ds.length ≤ 3 then
        match trail_groups (',' :: r2) with
        | some (gds, r3) => trail_finish neg (ds ++ gds) r3
        | none => none
      else none
    | _ => trail_finish neg ds r1

/-- Leftmost end-anchored search with the `(?<![A-Za-z0-9])` lookbehind. -/
def trail_search (prevOk : Bool) : List Char → Option ℤ
  | [] => none
  | c :: t =>
    if prevOk then
      match trail_shape (c :: t) with
      | some v => some v
      | none => trail_search (!c.isAlphanum) t
    else trail_search (!c.isAlphanum) t

/-- `parse_trailing_amount` (`main.py` lines 508-520) in integer cents;
`None` when no trailing number matches.  The `%`-suffix rejection in the
source is unreachable because the match can never contain `%`. -/
def parse_trailing_cents (s : String) : Option ℤ :=
  trail_search true (rstrip_punct (strip_ws (collapse_ws s.data)))

/-- `parse_trailing_amount` as the source returns it, in currency units. -/
def parse_trailing_amount (s : String) : Option ℚ :=
  (parse_trailing_cents s).map fun c => (c : ℚ) / 100

/-- Greedy comma groups `(?:,\d{3})*` with no anchor: every full group is
taken, whatever follows. -/
def money_groups_greedy : List Char → List (List Char) × List Char
  | ',' :: d1 :: d2 :: d3 :: rest =>
    if d1.isDigit && d2.isDigit && d3.isDigit then
      let (gs, r) := money_groups_greedy rest
      ([d1, d2, d3] :: gs, r)
    else ([], ',' :: d1 :: d2 :: d3 :: rest)
  | other => ([], other)

/-- Under the currency pattern's `(?!\d)` lookahead, a final comma group
followed by a digit is backtracked away; the characters of the dropped group
are restored to the remainder. -/
def money_adjust (ds : List Char) (gs : List (List Char)) (rest : List Char) :
    List Char × List Char :=
  match rest with
  | r :: _ =>
    if r.isDigit then
      match gs.getLast? with
      | some g => (ds ++ (gs.dropLast).flatten, ',' :: (g ++ rest))
      | none => (ds, rest)
    else (ds ++ gs.flatten, rest)
  | [] => (ds ++ gs.flatten, [])

/-- Optional fraction `(?:\.(\d{2}))?` of the currency pattern, honouring
the trailing `(?!\d)` lookahead: exactly two digits not followed by a third. -/
def money_frac (rest : List Char) : Option (Char × Char) × List Char :=
  match rest with
  | '.' :: a :: b :: r =>
    if a.isDigit && b.isDigit then
      match r with
      | c :: _ => if c.isDigit then (none, '.' :: a :: b :: r) else (some (a, b), r)
      | [] => (some (a, b), [])
    else (none, '.' :: a :: b :: r)
  | other => (none, other)

/-- One currency-pattern match starting at a digit, returning the captured
value in cents and the unconsumed remainder. -/
def money_shape_at (cs : List Char) : ℤ × List Char :=
  let ds := (spanDigits cs).1
  let r1 := (spanDigits cs).2
  let dsr :=
    if ds.length ≤ 3 then
      let gr := money_groups_greedy r1
      money_adjust ds gr.1 gr.2
    else (ds, r1)
  match money_frac dsr.2 with
  | (some (a, b), r3) =>
    ((natOfDigits dsr.1 : ℤ) * 100 + (fracCents [a, b] : ℤ), r3)
  | (none, r3) => ((natOfDigits dsr.1 : ℤ) * 100, r3)

/-- Non-overlapping scan of `CURRENCY_PATTERN.finditer`; the optional
currency prefix is not modelled because it contains no digits and never
changes the captured number. -/
def money_scan : ℕ → List Char → List ℤ
  | 0, _ => []
  | _, [] => []
  | fuel + 1, c :: t =>
    if c.isDigit then
      let vr := money_shape_at (c :: t)
      (if 0 < vr.1 ∧ vr.1 < 10000000 then [vr.1] else []) ++ money_scan fuel vr.2
    else money_scan fuel t

/-- `parse_money_values` (`main.py` lines 483-495) in integer cents. -/
def parse_money_cents (s : String) : List ℤ :=
  money_scan s.data.length s.data

/-- `parse_money_values` as the source returns it, in currency units. -/
def parse_money_values (s : String) : List ℚ :=
  (parse_money_cents s).map fun c => (c : ℚ) / 100

/-- Fraction `(?:\.\d{1,2})?` of the signed pattern: greedy one or two
digits, no lookahead. -/
def signed_frac : List Char → ℤ × List Char
  | '.' :: a :: b :: r =>
    if a.isDigit && b.isDigit then ((fracCents [a, b] : ℤ), r)
    else if a.isDigit then ((fracCents [a] : ℤ), b :: r)
    else (0, '.' :: a :: b :: r)
  | '.' :: a :: r =>
    if a.isDigit then ((fracCents [a] : ℤ), r)
    else (0, '.' :: a :: r)
  | other => (0, other)

/-- One match of `-?\d+(?:,\d{3})*(?:\.\d{1,2})?` at this position. -/
def signed_shape_at (cs : List Char) : Option (ℤ × List Char) :=
  let neg := match cs with | '-' :: _ => true | _ => false
  let cs1 := if neg then cs.tail else cs
  let ds := (spanDigits cs1).1
  let r1 := (spanDigits cs1).2
  if ds.isEmpty then none
  else
    let gr := money_groups_greedy r1
    let fr := signed_frac gr.2
    let sign : ℤ := if neg then -1 else 1
    some (sign * ((natOfDigits (ds ++ gr.1.flatten) : ℤ) * 100 + fr.1), fr.2)

/-- Scan of `re.findall` for the signed pattern with the `(?<!\d)`
lookbehind, keeping the last match; a match always ends in a digit, so the
lookbehind fails immediately after one. -/
def signed_scan : ℕ → Bool → List Char → Option ℤ → Option ℤ
  | 0, _, _, acc => acc
  | _, _, [], acc => acc
  | fuel + 1, prevOk, c :: t, acc =>
    if prevOk then
      match signed_shape_at (c :: t) with
      | some (v, rest) => signed_scan fuel false rest (some v)
      | none => signed_scan fuel (!c.isDigit) t acc
    else signed_scan fuel (!c.isDigit) t acc

/-- `parse_last_signed_amount` (`main.py` lines 498-505) in integer cents. -/
def parse_last_signed_cents (s : String) : Option ℤ :=
  signed_scan s.data.length true s.data none

/-- Lowercase letter or digit, the class `[a-z0-9]` on a lowercased line. -/
def isLowerAlnum (c : Char) : Bool := c.isDigit || ('a' ≤ c && c ≤ 'z')

/-- Remainder of `\bgst\s*[:#-]?\s*[a-z0-9]{10,}\b` after the literal
`gst`: optional separator, then at least ten alphanumerics up to a word
boundary. -/
def gstin_after (cs : List Char) : Bool :=
  let r1 := cs.dropWhile isPySpace
  let r2 := match r1 with
    | c :: t => if c = ':' || c = '#' || c = '-' then t else r1
    | [] => r1
  let r3 := r2.dropWhile isPySpace
  let run := r3.takeWhile isLowerAlnum
  let rest := r3.drop run.length
  10 ≤ run.length && (match rest with | [] => true | c :: _ => !isWordChar c)

/-- Scan for `\bgst\s*[:#-]?\s*[a-z0-9]{10,}\b` on a lowercased string. -/
def gstin_scan : Bool → List Char → Bool
  | prevOk, 'g' :: 's' :: 't' :: rest =>
    (prevOk && gstin_after rest) || gstin_scan false ('s' :: 't' :: rest)
  | _, c :: t => gstin_scan (!isWordChar c) t
  | _, [] => false

/-- Tax-identifier detector used to keep GST registration numbers out of the
totals (`main.py` lines 865 and 904). -/
def gstin_like (lower : String) : Bool := gstin_scan true lower.data

/-- Subtotal keyword family (`main.py` line 871). -/
def SUBTOTAL_KWS : List String :=
  ["sub total", "subtotal", "item total", "total items", "bill total", "total amount"]

/-- Grand-total keyword family (`main.py` lines 875-891). -/
def GRAND_KWS : List String :=
  ["grand total", "gr.total", "gr total", "gross amount", "bill amount", "net amount",
   "net to pay", "amount payable", "amount due", "pay amount", "payable amount",
   "total payable"]

/-- Tax keyword family (`main.py` line 901). -/
def TAX_KWS : List String := ["sgst", "cgst", "gst", "vat", "service tax", "tax", "cess"]

/-- Per-line amount: trailing number first, else the last money value. -/
def line_amount (line : String) : Option ℤ :=
  match parse_trailing_cents line with
  | some a => some a
  | none => (parse_money_cents line).getLast?

/-- Generic total-like candidate recorded before the keyword chain
(`main.py` lines 864-866). -/
def total_cand (line : String) : Option ℤ :=
  match line_amount line with
  | some a =>
    if (str_contains (lower_str line) "total" || str_contains (lower_str line) "payable"
        || str_contains (lower_str line) "amount")
        && !gstin_like (lower_str line)
        && !str_contains (lower_str line) "total quantity" then some a else none
  | none => none

/-- Outcome of the keyword decision chain for one line (`main.py` lines
868-928); `skip` is any `continue` that leaves the accumulators unchanged. -/
inductive LineClass where
  | skip : LineClass
  | subtotalC (a : Option ℤ) : LineClass
  | grandC (a : Option ℤ) : LineClass
  | roundC (signed : Option ℤ) : LineClass
  | taxC (tail : ℤ) (label : String) (isService : Bool) : LineClass
  | serviceC (a : ℤ) (label : String) : LineClass
deriving DecidableEq

/-- Keyword decision chain for one raw line. -/
def classify_line (line : String) : LineClass :=
  let lower := lower_str line
  let amount := line_amount line
  if amount.isNone && !str_contains lower "round" then .skip
  else if SUBTOTAL_KWS.any (fun k => str_contains lower k) then .subtotalC amount
  else if GRAND_KWS.any (fun k => str_contains lower k) then .grandC amount
  else if str_contains lower "round off" || str_contains lower "r. off"
      || str_contains lower "roundof" then .roundC (parse_last_signed_cents line)
  else if TAX_KWS.any (fun k => str_contains lower k) then
    if str_contains lower "tax id" || str_contains lower "gstin"
        || str_contains lower "tin" then .skip
    else if gstin_like lower then .skip
    else if str_contains lower "vat on food" || str_contains lower "vat on beverages"
        || str_contains lower " paid" then .skip
    else if amount.isNone then .skip
    else
      match parse_trailing_cents line with
      | none => .skip
      | some tail => .taxC tail (clean_label line)
          (str_contains lower "service charge" || str_contains lower "service tax")
  else if str_contains lower "service charge" && amount.isSome then
    match amount with
    | some a => .serviceC a (clean_label line)
    | none => .skip
  else .skip

/-- Accumulators of the detection loop, amounts in integer cents. -/
structure TotState where
  subtotal_cands : List (Option ℤ)
  grand_cands : List (Option ℤ)
  total_cands : List (ℕ × ℤ)
  tax_total : ℤ
  service_charge : ℤ
  round_off : ℤ
  tax_breakdown : List (String × ℤ)
deriving DecidableEq

def init_tot_state : TotState := ⟨[], [], [], 0, 0, 0, []⟩

/-- Loop body of `detect_bill_totals` for one line at index `idx`. -/
def detect_step (idx : ℕ) (st : TotState) (line : String) : TotState :=
  let st1 := match total_cand line with
    | some a => { st with total_cands := st.total_cands ++ [(idx, a)] }
    | none => st
  match classify_line line with
  | .skip => st1
  | .subtotalC a => { st1 with subtotal_cands := st1.subtotal_cands ++ [a] }
  | .grandC a => { st1 with grand_cands := st1.grand_cands ++ [a] }
  | .roundC signed =>
    match signed with
    | some v => { st1 with round_off := st1.round_off + v }
    | none => st1
  | .taxC tail label isSvc =>
    let st2 := { st1 with tax_total := st1.tax_total + tail }
    let st3 := { st2 with tax_breakdown := st2.tax_breakdown ++ [(label, tail)] }
    if isSvc then { st3 with service_charge := st3.service_charge + tail } else st3
  | .serviceC a label =>
    let st2 := { st1 with service_charge := st1.service_charge + a }
    { st2 with tax_breakdown := st2.tax_breakdown ++ [(label, a)] }

/-- Indexed fold of the detection loop. -/
def detect_fold : ℕ → TotState → List String → TotState
  | _, st, [] => st
  | idx, st, l :: ls => detect_fold (idx + 1) (detect_step idx st l) ls

/-- Last candidate of a list, `None` entries flattened
(`cands[-1] if cands else None`). -/
def last_opt (l : List (Option ℤ)) : Option ℤ := l.getLast?.bind id

/-- Python `max` over a list. -/
def list_max : List ℤ → Option ℤ
  | [] => none
  | x :: t =>
    match list_max t with
    | none => some x
    | some m => some (max x m)

/-- Grand-total choice: explicit keyword candidate, else the bottom-window
waterfall over total-like candidates (`main.py` lines 931-941). -/
def detect_grand (raw_len : ℕ) (st : TotState) (subtotal : Option ℤ) : Option ℤ :=
  match last_opt st.grand_cands with
  | some g => some g
  | none =>
    if 2 ≤ st.total_cands.length then
      let cutoff := raw_len - 8
      let bottom := (st.total_cands.filter fun p => cutoff ≤ p.1).map fun p => p.2
      let pool0 := if bottom.isEmpty then st.total_cands.map fun p => p.2 else bottom
      let pool := match subtotal with
        | some sv =>
          let f := pool0.filter fun p => sv ≤ p
          if f.isEmpty then pool0 else f
        | none => pool0
      list_max pool
    else none

/-- Detected receipt totals (`detect_bill_totals` return value). -/
structure BillTotals where
  detected_subtotal : Option ℚ
  detected_grand_total : Option ℚ
  detected_tax_total : Option ℚ
  detected_service_charge : Option ℚ
  detected_round_off : Option ℚ
  detected_tax_breakdown : List (String × ℚ)

/-- `detect_bill_totals` (`main.py` lines 849-953). -/
def detect_bill_totals (raw_lines : List String) : BillTotals :=
  let st := detect_fold 0 init_tot_state raw_lines
  let subtotal := last_opt st.subtotal_cands
  let grand0 := detect_grand raw_lines.length st subtotal
  let grand := match grand0 with
    | some g => some g
    | none =>
      match subtotal with
      | some sv =>
        if 0 < st.tax_total ∨ 0 < st.service_charge ∨ st.round_off ≠ 0 then
          some (sv + st.tax_total + st.service_charge + st.round_off)
        else none
      | none => none
  { detected_subtotal := subtotal.map fun c => round2 ((c : ℚ) / 100),
    detected_grand_total := grand.map fun c => round2 ((c : ℚ) / 100),
    detected_tax_total :=
      if 0 < st.tax_total then some (round2 ((st.tax_total : ℚ) / 100)) else none,
    detected_service_charge :=
      if 0 < st.service_charge then some (round2 ((st.service_charge : ℚ) / 100))
      else none,
    detected_round_off :=
      if st.round_off ≠ 0 then some (round2 ((st.round_off : ℚ) / 100)) else none,
    detected_tax_breakdown :=
      st.tax_breakdown.map fun p => (p.1, round2 ((p.2 : ℚ) / 100)) }

/-- C6: totals detection on the six-line scenario receipt yields subtotal
610.00, tax total 109.42, round-off -0.42, grand total 719.00 and at least
three tax-breakdown entries. -/
theorem C6_totals_scenario :
    (detect_bill_totals ["Items 5 Bill Total : 610.00", "Service Tax @4.94% : 30.16",
      "*VAT @ 12.50% : 71.26", "**VAT @ 20.00% : 8.00", "R. Off: -0.42",
      "Net To Pay 719.00"]).detected_subtotal = some 610
    ∧ (detect_bill_totals ["Items 5 Bill Total : 610.00", "Service Tax @4.94% : 30.16",
      "*VAT @ 12.50% : 71.26", "**VAT @ 20.00% : 8.00", "R. Off: -0.42",
      "Net To Pay 719.00"]).detected_tax_total = some (5471/50)
    ∧ (detect_bill_totals ["Items 5 Bill Total : 610.00", "Service Tax @4.94% : 30.16",
      "*VAT @ 12.50% : 71.26", "**VAT @ 20.00% : 8.00", "R. Off: -0.42",
      "Net To Pay 719.00"]).detected_round_off = some (-21/50)
    ∧ (detect_bill_totals ["Items 5 Bill Total : 610.00", "Service Tax @4.94% : 30.16",
      "*VAT @ 12.50% : 71.26", "**VAT @ 20.00% : 8.00", "R. Off: -0.42",
      "Net To Pay 719.00"]).detected_grand_total = some 719
    ∧ 3 ≤ (detect_bill_totals ["Items 5 Bill Total : 610.00",
      "Service Tax @4.94% : 30.16", "*VAT @ 12.50% : 71.26", "**VAT @ 20.00% : 8.00",
      "R. Off: -0.42", "Net To Pay 719.00"]).detected_tax_breakdown.length := by
  have hst : detect_fold 0 init_tot_state ["Items 5 Bill Total : 610.00",
      "Service Tax @4.94% : 30.16", "*VAT @ 12.50% : 71.26", "**VAT @ 20.00% : 8.00",
      "R. Off: -0.42", "Net To Pay 719.00"]
      = ⟨[some 61000], [some 71900], [(0, 61000)], 10942, 3016, -42,
         [("Service Tax @4.94% : 30.16", 3016), ("*VAT @ 12.50% : 71.26", 7126),
          ("**VAT @ 20.00% : 8.00", 800)]⟩ := by decide
  refine ⟨?_, ?_, ?_, ?_, ?_⟩ <;>
    simp only [detect_bill_totals, hst, last_opt] <;>
    norm_num [round2, rne, detect_grand, last_opt]

/-- C7: when no explicit grand-total keyword line was seen, the waterfall
does not apply (fewer than two total-like candidates), a subtotal is known
and at least one of tax total, service charge or round-off is nonzero,
`detect_bill_totals` derives the grand total as their sum. -/
theorem C7_grand_arithmetic (lines : List String) (sv : ℤ)
    (hsub : last_opt (detect_fold 0 init_tot_state lines).subtotal_cands = some sv)
    (hng : last_opt (detect_fold 0 init_tot_state lines).grand_cands = none)
    (hlt : (detect_fold 0 init_tot_state lines).total_cands.length < 2)
    (hone : 0 < (detect_fold 0 init_tot_state lines).tax_total
      ∨ 0 < (detect_fold 0 init_tot_state lines).service_charge
      ∨ (detect_fold 0 init_tot_state lines).round_off ≠ 0) :
    (detect_bill_totals lines).detected_grand_total
      = some (round2 (((sv + (detect_fold 0 init_tot_state lines).tax_total
          + (detect_fold 0 init_tot_state lines).service_charge
          + (detect_fold 0 init_tot_state lines).round_off : ℤ) : ℚ) / 100)) := by
  have hg0 : detect_grand lines.length (detect_fold 0 init_tot_state lines)
      (last_opt (detect_fold 0 init_tot_state lines).subtotal_cands) = none := by
    unfold detect_grand
    rw [hng]
    dsimp only
    rw [if_neg (not_le.mpr hlt)]
  simp only [detect_bill_totals]
  rw [hg0, hsub]
  dsimp only
  rw [if_pos hone]
  rfl

/-- C7 (witness): the waterfall-free scenario derives 300.00 + 54.00 + 1.00
= 355.00 as the grand total. -/
theorem C7_grand_arithmetic_witness :
    last_opt (detect_fold 0 init_tot_state ["Bill Total 300.00", "GST 18% 54.00",
      "Round Off 1.00"]).subtotal_cands = some 30000
    ∧ last_opt (detect_fold 0 init_tot_state ["Bill Total 300.00", "GST 18% 54.00",
      "Round Off 1.00"]).grand_cands = none
    ∧ (detect_fold 0 init_tot_state ["Bill Total 300.00", "GST 18% 54.00",
      "Round Off 1.00"]).total_cands.length < 2
    ∧ (detect_bill_totals ["Bill Total 300.00", "GST 18% 54.00",
      "Round Off 1.00"]).detected_grand_total = some 355 := by
  have hst : detect_fold 0 init_tot_state ["Bill Total 300.00", "GST 18% 54.00",
      "Round Off 1.00"]
      = ⟨[some 30000], [], [(0, 30000)], 5400, 0, 100, [("GST 18% 54.00", 5400)]⟩ := by
    decide
  have h := C7_grand_arithmetic ["Bill Total 300.00", "GST 18% 54.00", "Round Off 1.00"]
    30000 (by decide) (by decide) (by decide) (by decide)
  refine ⟨by decide, by decide, by decide, ?_⟩
  rw [h, hst]
  norm_num [round2, rne]

theorem detect_step_gst (idx : ℕ) (st : TotState) :
    detect_step idx st "GST:27AABCC1926B1Z8" = st := by
  have h1 : total_cand "GST:27AABCC1926B1Z8" = none := by decide
  have h2 : classify_line "GST:27AABCC1926B1Z8" = LineClass.skip := by decide
  unfold detect_step
  rw [h1, h2]

/-- Equality of every accumulator except the index-carrying total-candidate
list. -/
def core_eq (st st' : TotState) : Prop :=
  st.subtotal_cands = st'.subtotal_cands ∧ st.grand_cands = st'.grand_cands
    ∧ st.tax_total = st'.tax_total ∧ st.service_charge = st'.service_charge
    ∧ st.round_off = st'.round_off ∧ st.tax_breakdown = st'.tax_breakdown

theorem detect_step_core (i j : ℕ) (st st' : TotState) (l : String)
    (h : core_eq st st') : core_eq (detect_step i st l) (detect_step j st' l) := by
  obtain ⟨h1, h2, h3, h4, h5, h6⟩ := h
  unfold detect_step core_eq
  cases htc : total_cand l <;> cases hcl : classify_line l <;>
    simp [h1, h2, h3, h4, h5, h6]
  all_goals rename_i signed
  all_goals cases signed <;> simp [h1, h2, h3, h4, h5, h6]

theorem detect_fold_core (ls : List String) : ∀ (i j : ℕ) (st st' : TotState),
    core_eq st st' → core_eq (detect_fold i st ls) (detect_fold j st' ls) := by
  induction ls with
  | nil =>
    intro i j st st' h
    exact h
  | cons l t ih =>
    intro i j st st' h
    simp only [detect_fold]
    exact ih _ _ _ _ (detect_step_core i j st st' l h)

theorem detect_fold_append (as bs : List String) : ∀ (i : ℕ) (st : TotState),
    detect_fold i st (as ++ bs) = detect_fold (i + as.length) (detect_fold i st as) bs := by
  induction as with
  | nil =>
    intro i st
    simp [detect_fold]
  | cons a t ih =>
    intro i st
    show detect_fold (i + 1) (detect_step i st a) (t ++ bs)
      = detect_fold (i + (t.length + 1)) (detect_fold (i + 1) (detect_step i st a) t) bs
    rw [ih (i + 1)]
    congr 1
    omega

/-- C8: inserting the GST-registration line `"GST:27AABCC1926B1Z8"` anywhere
into any input changes neither the detected tax total nor the tax breakdown:
its only GST mention is a tax-identifier string and the tax branch skips it. -/
theorem C8_gstin_line_inert (pre post : List String) :
    (detect_bill_totals (pre ++ "GST:27AABCC1926B1Z8" :: post)).detected_tax_total
      = (detect_bill_totals (pre ++ post)).detected_tax_total
    ∧ (detect_bill_totals (pre ++ "GST:27AABCC1926B1Z8" :: post)).detected_tax_breakdown
      = (detect_bill_totals (pre ++ post)).detected_tax_breakdown := by
  have hA : detect_fold 0 init_tot_state (pre ++ "GST:27AABCC1926B1Z8" :: post)
      = detect_fold (0 + pre.length + 1) (detect_fold 0 init_tot_state pre) post := by
    rw [detect_fold_append]
    simp only [detect_fold]
    rw [detect_step_gst]
  have hB : detect_fold 0 init_tot_state (pre ++ post)
      = detect_fold (0 + pre.length) (detect_fold 0 init_tot_state pre) post :=
    detect_fold_append pre post 0 init_tot_state
  have hcore : core_eq
      (detect_fold (0 + pre.length + 1) (detect_fold 0 init_tot_state pre) post)
      (detect_fold (0 + pre.length) (detect_fold 0 init_tot_state pre) post) :=
    detect_fold_core post _ _ _ _ ⟨rfl, rfl, rfl, rfl, rfl, rfl⟩
  obtain ⟨_, _, h3, _, _, h6⟩ := hcore
  constructor
  · simp only [detect_bill_totals]
    rw [hA, hB, h3]
  · simp only [detect_bill_totals]
    rw [hA, hB, h6]

/-!
Item extraction (`parse_structured_item` and `_extract_items_from_lines`,
`main.py` lines 560-765).

Lines are modelled after `normalize_line_text`: the record `NLine` carries
the normalized text together with the outcomes of the table-header,
table-end, outside-table-skip and structured-row regexes and of
`infer_quantity`/`clean_name`, which are pattern matches over that text
supplied by the caller.  Money values and decimal-token counts are computed
from the text by the same parsers as the totals detector; the in-table skip
decision is computed from the hard-skip keyword set.  Python's crash on a
zero total in an unreachable division is mapped to Lean's `0` division.
-/

/-- Big-endian decimal digits of a natural number (`str(n)` without the
empty-string case: `digitsBE 0 = []`, and `str(0)` is only reached behind
positivity guards). -/
def digitsBEAux : ℕ → ℕ → List ℕ
  | 0, _ => []
  | _ + 1, 0 => []
  | f + 1, n => digitsBEAux f (n / 10) ++ [n % 10]

def digitsBE (n : ℕ) : List ℕ := digitsBEAux (n + 1) n

def natOfDigitList (ds : List ℕ) : ℕ := ds.foldl (fun a d => 10 * a + d) 0

/-- One attempt of the glued-digit split with a fixed quantity-prefix
length (`for qty_len in (1, 2)`). -/
def glued_try (g_str : List ℕ) (total : ℚ) (qty_len : ℕ) : Option (ℤ × ℚ) :=
  if g_str.length ≤ qty_len then none
  else
    let qty := natOfDigitList (g_str.take qty_len)
    let unit : ℚ := (natOfDigitList (g_str.drop qty_len) : ℚ)
    if qty = 0 ∨ 12 < qty ∨ unit ≤ 0 then none
    else if |(qty : ℚ) * unit - total| ≤ max 1 (1/100 * max 1 total) then
      some ((qty : ℤ), unit)
    else none

/-- Suffix rule of the glued-digit split: the glued integer ends with the
digits of the total (`g_str.endswith(t_str)` with a nonempty digit prefix). -/
def glued_suffix (g_str : List ℕ) (total : ℚ) : Option (ℤ × ℚ) :=
  let t_int := (rne total).toNat
  let t_str := digitsBE t_int
  if 0 < t_int ∧ t_str.length < g_str.length
      ∧ g_str.drop (g_str.length - t_str.length) = t_str then
    let qty := natOfDigitList (g_str.take (g_str.length - t_str.length))
    if 0 < qty ∧ qty ≤ 12
        ∧ |(qty : ℚ) * (t_int : ℚ) - total| ≤ max 1 (1/100 * max 1 total) then
      some ((qty : ℤ), (t_int : ℚ))
    else none
  else none

/-- `infer_glued_qty_unit` (`main.py` lines 583-613). -/
def infer_glued_qty_unit (glued total : ℚ) : Option (ℤ × ℚ) :=
  let g_str := digitsBE (rne glued).toNat
  if g_str.length < 3 then none
  else
    match glued_try g_str total 1 with
    | some r => some r
    | none =>
      match glued_try g_str total 2 with
      | some r => some r
      | none => glued_suffix g_str total

/-- Structured-row match fed to `parse_structured_item`: the first of the
four row patterns that matches, carrying its numeric groups and the already
cleaned name (`clean_name` of the name group).  For the `qty_total` shape the
unit group of a re-match against the unit-total pattern is included, used
only when the quantity exceeds 25. -/
inductive StructShape where
  | qtyFirst (name : String) (qty unit total : ℚ) : StructShape
  | priceFirst (name : String) (unit qty total : ℚ) : StructShape
  | qtyTotal (name : String) (qty total : ℚ) (unitAlt : Option ℚ) : StructShape
  | unitTotal (name : String) (unit total : ℚ) : StructShape
deriving DecidableEq

/-- `int(round(q)) if abs(q - round(q)) < 0.01 else q`. -/
def int_if_near (q : ℚ) : ℚ := if |q - (rne q : ℚ)| < 1/100 then (rne q : ℚ) else q

/-- Final sanity checks of `parse_structured_item` (`main.py` lines
662-674). -/
def structured_checks (name : String) (quantity unit_price cost : ℚ) :
    Option PItem :=
  if cost < 1/2 then none
  else if 25 < quantity then none
  else if 15 < quantity ∧ unit_price < 10 then none
  else some ⟨name, quantity, unit_price, cost⟩

/-- Arithmetic of the `qty_first`/`price_first` modes (`main.py` lines
615-620): quantity from the qty group, unit price from the unit group, with
no tolerance check against the total. -/
def structured_qty_first (name : String) (qraw unit total : ℚ) : Option PItem :=
  if name.length < 2 then none
  else if qraw ≤ 0 then none
  else structured_checks name (int_if_near qraw) (round2 unit) (round2 total)

/-- Arithmetic of the `qty_total` mode (`main.py` lines 621-644). -/
def structured_qty_total (name : String) (qraw total : ℚ) (unitAlt : Option ℚ) :
    Option PItem :=
  if name.length < 2 then none
  else
    let cost := round2 total
    if qraw ≤ 0 then none
    else if 25 < qraw then
      match unitAlt with
      | none => none
      | some u =>
        let unit := round2 u
        if unit ≤ 0 then none
        else
          match infer_glued_qty_unit unit cost with
          | some (qg, ug) => structured_checks name (qg : ℚ) ug cost
          | none =>
            let inferred := cost / unit
            if 999/1000 ≤ inferred ∧ |inferred - (rne inferred : ℚ)| < 3/50
                ∧ inferred ≤ 20 then
              structured_checks name ((rne inferred : ℚ)) unit cost
            else structured_checks name 1 unit cost
    else
      let quantity := int_if_near qraw
      structured_checks name quantity (round2 (cost / quantity)) cost

/-- Arithmetic of the `unit_total` mode (`main.py` lines 645-660); the glued
split only survives into the unit price, since the inferred-quantity block
reassigns the quantity unconditionally. -/
def structured_unit_total (name : String) (u total : ℚ) : Option PItem :=
  if name.length < 2 then none
  else
    let cost := round2 total
    let unit0 := round2 u
    if unit0 ≤ 0 then none
    else
      let unit :=
        if cost < unit0 then
          match infer_glued_qty_unit unit0 cost with
          | some r => r.2
          | none => round2 cost
        else unit0
      let inferred := cost / unit
      let quantity :=
        if 999/1000 ≤ inferred ∧ |inferred - (rne inferred : ℚ)| < 3/50
            ∧ inferred ≤ 20 then ((rne inferred : ℚ))
        else 1
      structured_checks name quantity unit cost

/-- `parse_structured_item` (`main.py` lines 560-674) on the outcome of the
ordered pattern cascade. -/
def parse_structured_item_core : Option StructShape → Option PItem
  | none => none
  | some (.qtyFirst name qraw unit total) => structured_qty_first name qraw unit total
  | some (.priceFirst name unit qraw total) => structured_qty_first name qraw unit total
  | some (.qtyTotal name qraw total unitAlt) => structured_qty_total name qraw total unitAlt
  | some (.unitTotal name unit total) => structured_unit_total name unit total

/-- Count of `\b\d+\.\d{2}\b` matches, non-overlapping left to right. -/
def dec_token_scan : ℕ → Bool → List Char → ℕ
  | 0, _, _ => 0
  | _, _, [] => 0
  | fuel + 1, prevOk, c :: t =>
    if prevOk && c.isDigit then
      let r1 := (spanDigits (c :: t)).2
      match r1 with
      | '.' :: r2 =>
        let fs := (spanDigits r2).1
        let r3 := (spanDigits r2).2
        if fs.length = 2 && (match r3 with | [] => true | d :: _ => !isWordChar d) then
          1 + dec_token_scan fuel false r3
        else dec_token_scan fuel false t
      | _ => dec_token_scan fuel false t
    else dec_token_scan fuel (!isWordChar c) t

def dec_token_count (s : String) : ℕ := dec_token_scan s.data.length true s.data

/-- Literal expansion of `NON_MENU_ITEM_NAME_PATTERN` (`main.py` lines
140-146); `gr\.? ?total` contributes its four spellings. -/
def NON_MENU_LITS : List String :=
  ["total", "tota", "subtotal", "sub total", "total amount", "grand total",
   "grtotal", "gr total", "gr.total", "gr. total", "gross total", "net amount",
   "amount due", "payable", "bill total", "bill amount", "bil amount",
   "round off", "service charge", "service tax", "service", "discount",
   "gst", "cgst", "sgst", "vat", "tax"]

/-- Remainder after a literal keyword, if it is a prefix here. -/
def kw_rest : List Char → List Char → Option (List Char)
  | [], rest => some rest
  | _ :: _, [] => none
  | n :: ns, h :: hs => if n = h then kw_rest ns hs else none

/-- Word-boundary keyword match at this position: every listed literal
starts and ends with a word character, so both boundaries reduce to
non-word neighbours. -/
def kw_hit (lit : List Char) (prevOk : Bool) (cs : List Char) : Bool :=
  prevOk && (match kw_rest lit cs with
    | some [] => true
    | some (c :: _) => !isWordChar c
    | none => false)

def kw_scan (lits : List (List Char)) : Bool → List Char → Bool
  | _, [] => false
  | prevOk, c :: t =>
    lits.any (fun l => kw_hit l prevOk (c :: t)) || kw_scan lits (!isWordChar c) t

/-- `NON_MENU_ITEM_NAME_PATTERN.search` on an item name (case-insensitive). -/
def non_menu_name (name : String) : Bool :=
  kw_scan (NON_MENU_LITS.map fun w => w.data) true (lower_str name).data

/-- Normalized extractor line with the outcomes of its per-line regexes. -/
structure NLine where
  text : String
  header : Bool
  tableEnd : Bool
  skipOut : Bool
  structShape : Option StructShape
  inferredQty : ℚ
  genericName : String

/-- Quantity clamp of the generic rule (`if quantity <= 0: quantity = 1.0`). -/
def generic_quantity (inferredQty : ℚ) : ℚ := if inferredQty ≤ 0 then 1 else inferredQty

/-- Cost of the generic rule: last money value, rounded. -/
def generic_cost (text : String) : ℚ :=
  round2 ((parse_money_values text).getLast?.getD 0)

/-- Unit-price candidate of the generic rule: second-to-last money value. -/
def generic_unit0 (text : String) : ℚ :=
  round2 ((parse_money_values text).getD ((parse_money_values text).length - 2) 0)

/-- Unit price after the tolerance re-derivation (`main.py` lines 730-732). -/
def generic_unit (text : String) (inferredQty : ℚ) : ℚ :=
  if max 1 (8/100 * generic_cost text)
      < |generic_unit0 text * generic_quantity inferredQty - generic_cost text| then
    round2 (generic_cost text / generic_quantity inferredQty)
  else generic_unit0 text

/-- Generic fallback row rule (`main.py` lines 713-749) given the inferred
quantity and cleaned name for the line. -/
def generic_row_item (text : String) (inferredQty : ℚ) (genericName : String) :
    Option PItem :=
  if (parse_money_values text).length < 2 then none
  else if generic_cost text < 1/2 then none
  else if 25 < generic_quantity inferredQty
      ∨ (15 < generic_quantity inferredQty ∧ generic_unit text inferredQty < 10) then none
  else if genericName.length < 2 then none
  else some ⟨genericName, generic_quantity inferredQty, generic_unit text inferredQty,
    generic_cost text⟩

/-- Loop state of `_extract_items_from_lines`. -/
structure ExtState where
  items : List PItem
  insideTable : Bool
  sawHeader : Bool

/-- Loop body of `_extract_items_from_lines` for one line. -/
def extract_line_step (requireTable : Bool) (st : ExtState) (ln : NLine) : ExtState :=
  if ln.text = "" then st
  else if ln.header then ⟨st.items, true, true⟩
  else if ln.tableEnd then ⟨st.items, false, st.sawHeader⟩
  else if requireTable ∧ ¬ st.insideTable then st
  else if (if st.insideTable then should_skip_line_in_table ln.text else ln.skipOut) then st
  else
    match parse_structured_item_core ln.structShape with
    | some it => ⟨st.items ++ [it], st.insideTable, st.sawHeader⟩
    | none =>
      if ¬ requireTable ∧ dec_token_count ln.text < 2 then st
      else
        match generic_row_item ln.text ln.inferredQty ln.genericName with
        | some it => ⟨st.items ++ [it], st.insideTable, st.sawHeader⟩
        | none => st

/-- One pass of `_extract_items_from_lines`; strict mode without a header
yields nothing. -/
def extract_pass (requireTable : Bool) (lines : List NLine) : List PItem :=
  let fin := lines.foldl (extract_line_step requireTable) ⟨[], false, false⟩
  if requireTable ∧ ¬ fin.sawHeader then [] else fin.items

/-- `extract_items_from_lines` (`main.py` lines 757-765): strict pass, then
the global fallback pass, each filtered by the non-menu name pattern. -/
def extract_items_from_lines (lines : List NLine) : List PItem :=
  let pass1 := (extract_pass true lines).filter fun it => !non_menu_name it.name
  if pass1.isEmpty then
    (extract_pass false lines).filter fun it => !non_menu_name it.name
  else pass1


/- ### C3: tolerance of extracted items -/

/-- C3: every item produced by the generic fallback rule of
`_extract_items_from_lines` satisfies the reconstruction tolerance
`|cost - quantity * unit_price| <= max 1 (0.08 * cost)`: either the
unit-price candidate already passed the tolerance test, or the unit price
was re-derived as `round(cost / quantity, 2)` and the rounding error of at
most half a cent times a quantity of at most 25 stays below 1. -/
theorem C3_generic_row_tolerance (text : String) (q0 : ℚ) (name : String) (it : PItem)
    (h : generic_row_item text q0 name = some it) :
    |it.cost - it.quantity * it.unit_price| ≤ max 1 (8/100 * it.cost) := by
  have hqpos : 0 < generic_quantity q0 := by
    unfold generic_quantity
    split
    · norm_num
    · rename_i hq0
      exact lt_of_not_le hq0
  unfold generic_row_item at h
  split at h
  · exact absurd h (by simp)
  · split at h
    · exact absurd h (by simp)
    · split at h
      · exact absurd h (by simp)
      · split at h
        · exact absurd h (by simp)
        · rename_i hqcheck hname
          obtain rfl := Option.some.inj h
          push_neg at hqcheck
          have hq25 : generic_quantity q0 ≤ 25 := hqcheck.1
          show |generic_cost text - generic_quantity q0 * generic_unit text q0|
            ≤ max 1 (8/100 * generic_cost text)
          unfold generic_unit
          split
          · rename_i htol
            have h1 := round2_le (generic_cost text / generic_quantity q0)
            have h2 := le_round2 (generic_cost text / generic_quantity q0)
            have hkey : generic_quantity q0 * (generic_cost text / generic_quantity q0)
                = generic_cost text := by
              field_simp
            have e1 : generic_quantity q0 * round2 (generic_cost text / generic_quantity q0)
                ≤ generic_quantity q0 * (generic_cost text / generic_quantity q0 + 1/200) :=
              mul_le_mul_of_nonneg_left h1 hqpos.le
            have e2 : generic_quantity q0 * (generic_cost text / generic_quantity q0 - 1/200)
                ≤ generic_quantity q0 * round2 (generic_cost text / generic_quantity q0) :=
              mul_le_mul_of_nonneg_left h2 hqpos.le
            have hmax : (1:ℚ) ≤ max 1 (8/100 * generic_cost text) := le_max_left 1 _
            rw [abs_le]
            constructor
            · nlinarith
            · nlinarith
          · rename_i htol
            push_neg at htol
            calc |generic_cost text - generic_quantity q0 * generic_unit0 text|
                = |generic_unit0 text * generic_quantity q0 - generic_cost text| := by
                  rw [abs_sub_comm, mul_comm]
              _ ≤ max 1 (8/100 * generic_cost text) := htol

/-- C3 (witness): the generic rule on the line
`"Veg Roll 2.00 50.00 100.00"` with inferred quantity `2` produces the item
`(Veg Roll, 2, 50, 100)`, and the tolerance theorem applies to it. -/
theorem C3_generic_row_tolerance_witness :
    generic_row_item "Veg Roll 2.00 50.00 100.00" 2 "Veg Roll"
      = some ⟨"Veg Roll", 2, 50, 100⟩ ∧
    |(⟨"Veg Roll", 2, 50, 100⟩ : PItem).cost
        - (⟨"Veg Roll", 2, 50, 100⟩ : PItem).quantity
          * (⟨"Veg Roll", 2, 50, 100⟩ : PItem).unit_price|
      ≤ max 1 (8/100 * (⟨"Veg Roll", 2, 50, 100⟩ : PItem).cost) := by
  have hmv : parse_money_cents "Veg Roll 2.00 50.00 100.00" = [200, 5000, 10000] := by
    decide
  have hl8 : "Veg Roll".length = 8 := by decide
  have hvals : parse_money_values "Veg Roll 2.00 50.00 100.00" = [2, 50, 100] := by
    unfold parse_money_values
    rw [hmv]
    norm_num
  have hc : generic_cost "Veg Roll 2.00 50.00 100.00" = 100 := by
    unfold generic_cost
    rw [hvals]
    norm_num [round2, rne]
  have hq : generic_quantity 2 = 2 := by
    unfold generic_quantity
    norm_num
  have hu0 : generic_unit0 "Veg Roll 2.00 50.00 100.00" = 50 := by
    unfold generic_unit0
    rw [hvals]
    norm_num [round2, rne]
  have hu : generic_unit "Veg Roll 2.00 50.00 100.00" 2 = 50 := by
    unfold generic_unit
    rw [hc, hu0, hq]
    norm_num
  have heval : generic_row_item "Veg Roll 2.00 50.00 100.00" 2 "Veg Roll"
      = some ⟨"Veg Roll", 2, 50, 100⟩ := by
    unfold generic_row_item
    rw [hvals, hc, hq, hu]
    norm_num [hl8]
  exact ⟨heval, C3_generic_row_tolerance _ _ _ _ heval⟩

/-- C3 (counterexample to the claim as stated): the structured `qty_first`
shape performs no tolerance check, so the line `"Pizza 2 100.00 999.00"`
(matching the pattern with quantity 2, unit price 100 and total 999) is
extracted as an item with `|999 - 2 * 100| = 799`, far beyond
`max 1 (0.08 * 999) = 79.92`. -/
theorem C3_counterexample :
    extract_items_from_lines [⟨"Pizza 2 100.00 999.00", false, false, false,
        some (StructShape.qtyFirst "Pizza" 2 100 999), 2, "Pizza"⟩]
      = [⟨"Pizza", 2, 100, 999⟩] ∧
    ¬ |(⟨"Pizza", 2, 100, 999⟩ : PItem).cost
        - (⟨"Pizza", 2, 100, 999⟩ : PItem).quantity
          * (⟨"Pizza", 2, 100, 999⟩ : PItem).unit_price|
      ≤ max 1 (8/100 * (⟨"Pizza", 2, 100, 999⟩ : PItem).cost) := by
  have hlP : "Pizza".length = 5 := by decide
  have hstruct : parse_structured_item_core (some (StructShape.qtyFirst "Pizza" 2 100 999))
      = some ⟨"Pizza", 2, 100, 999⟩ := by
    unfold parse_structured_item_core structured_qty_first structured_checks int_if_near
    norm_num [round2, rne, hlP]
  have hnm : non_menu_name "Pizza" = false := by decide
  constructor
  · simp +decide [extract_items_from_lines, extract_pass, extract_line_step, hstruct, hnm,
      should_skip_line_in_table]
  · norm_num

/- ### C4: the decimal-token gate of pass 2 -/

/-- C4: in the fallback pass (`require_table_section = False`), a line with
fewer than two decimal-formatted tokens can only produce an item through
the structured shapes: if the structured parse fails there too, the line is
dropped before the generic rule, leaving the accumulated items unchanged. -/
theorem C4_decimal_gate (st : ExtState) (ln : NLine)
    (hstruct : parse_structured_item_core ln.structShape = none)
    (hdec : dec_token_count ln.text < 2) :
    (extract_line_step false st ln).items = st.items := by
  unfold extract_line_step
  simp only [hstruct]
  have hcond : (¬ (false : Bool) = true ∧ dec_token_count ln.text < 2) := ⟨by simp, hdec⟩
  rw [if_pos hcond]
  repeat' split
  all_goals rfl

/-- C4 (witness): the free-text line `"Hello world"` has no decimal tokens
and no structured shape, so the pass-2 step leaves the item list empty. -/
theorem C4_decimal_gate_witness :
    parse_structured_item_core (none : Option StructShape) = none ∧
    dec_token_count "Hello world" < 2 ∧
    (extract_line_step false ⟨[], false, false⟩
        ⟨"Hello world", false, false, false, none, 1, ""⟩).items = [] :=
  ⟨rfl, by decide, C4_decimal_gate ⟨[], false, false⟩
    ⟨"Hello world", false, false, false, none, 1, ""⟩ rfl (by decide)⟩

/-- C4 (counterexample to the claim as stated): the decimal-token gate is
checked only after the structured parse, so the line `"Pizza 2 300"` —
which contains zero decimal-formatted tokens but matches the `qty_total`
shape — still yields the item `(Pizza, 2, 150, 300)` in pass 2. -/
theorem C4_counterexample :
    dec_token_count "Pizza 2 300" < 2 ∧
    extract_items_from_lines [⟨"Pizza 2 300", false, false, false,
        some (StructShape.qtyTotal "Pizza" 2 300 (some 2)), 2, "Pizza"⟩]
      = [⟨"Pizza", 2, 150, 300⟩] := by
  have hlP : "Pizza".length = 5 := by decide
  have hstruct : parse_structured_item_core
      (some (StructShape.qtyTotal "Pizza" 2 300 (some 2)))
      = some ⟨"Pizza", 2, 150, 300⟩ := by
    unfold parse_structured_item_core structured_qty_total structured_checks int_if_near
    norm_num [round2, rne, hlP]
  have hnm : non_menu_name "Pizza" = false := by decide
  constructor
  · decide
  · simp +decide [extract_items_from_lines, extract_pass, extract_line_step, hstruct, hnm,
      should_skip_line_in_table]

end Slice
